import Mathlib

/-!
Verification of the Diff-Digest core: the relevance filter (`src/lib/pr-filters.ts`
and its stricter variant), the streaming note-generation orchestrator
(`src/app/api/generate-notes/route.ts`), and the client-side stream decoding and
overlap-merging reconstruction loop (the page component).

Strings from the JavaScript source are modelled as `String`/`List Char`;
JavaScript's `String.prototype` operations (`trim`, `split`, `slice`,
`startsWith`, `toLowerCase`, `replace(/\s+/g,'')`) are given explicit
character-list models below.
-/

/-- Whitespace test used to model JavaScript's `trim` and the `\s` character
class (space, tab, newline, carriage return, form feed, vertical tab). -/
def isWsChar (c : Char) : Bool :=
  c = ' ' || c = '\t' || c = '\n' || c = '\r' || c = '\x0c' || c = '\x0b'

/-- Model of JavaScript `String.prototype.trim`: drop whitespace from both ends. -/
def trimL (l : List Char) : List Char :=
  ((l.dropWhile isWsChar).reverse.dropWhile isWsChar).reverse

/-- Model of JavaScript `String.prototype.startsWith` on character lists. -/
def startsL : List Char → List Char → Bool
  | [], _ => true
  | _ :: _, [] => false
  | p :: ps, c :: cs => p = c && startsL ps cs

/-- Strip an expected literal from the front of a character list, returning the
remainder; models `startsWith` plus `slice(n)` for the literal's length. -/
def dropLit : List Char → List Char → Option (List Char)
  | [], s => some s
  | _ :: _, [] => none
  | p :: ps, c :: cs => if p = c then dropLit ps cs else none

/-- Model of JavaScript `split('\n')`: splits at every newline, keeping empty
pieces (so the result is always nonempty). -/
def splitNl : List Char → List (List Char)
  | [] => [[]]
  | c :: rest =>
    if c = '\n' then [] :: splitNl rest
    else
      match splitNl rest with
      | [] => [[c]]
      | l :: ls => (c :: l) :: ls

/-- Model of JavaScript `replace(/\s+/g, '')`: remove every whitespace character. -/
def removeWs (l : List Char) : List Char := l.filter (fun c => !isWsChar c)

/-- ASCII model of JavaScript `toLowerCase` (the source only compares against
ASCII patterns, so only ASCII folding is relevant). -/
def lowerChar (c : Char) : Char :=
  if 'A' ≤ c ∧ c ≤ 'Z' then Char.ofNat (c.toNat + 32) else c

/-- Lowercase a character list. -/
def lowerL (l : List Char) : List Char := l.map lowerChar

/-- Does `p` hold of some tail of the list?  Used to model substring search. -/
def anyTail (p : List Char → Bool) : List Char → Bool
  | [] => p []
  | c :: rest => p (c :: rest) || anyTail p rest

/-- Model of JavaScript `String.prototype.includes`: substring occurrence. -/
def containsSub (l pat : List Char) : Bool := anyTail (startsL pat) l

namespace Client

/-!
The client page component (`app/page.tsx`, both variants):

```js
function mergeWithOverlap(prev, fragment) {
  if (!prev || !fragment) { return prev || fragment || ''; }   // guarded variant only
  const max = Math.min(prev.length, fragment.length);
  for (let k = max; k > 0; k--) {
    if (prev.slice(-k) === fragment.slice(0, k)) {
      return prev + fragment.slice(k);
    }
  }
  return prev + fragment;
}
```
-/

/-- The source's descending overlap search: the largest `k ≤ bound` such that the
last `k` characters of `prev` equal the first `k` characters of `fragment`
(0 when no positive `k` matches). -/
def findOverlap (prev fragment : List Char) : Nat → Nat
  | 0 => 0
  | k + 1 =>
    if prev.drop (prev.length - (k + 1)) = fragment.take (k + 1) then k + 1
    else findOverlap prev fragment k

/-- The loop body plus final concatenation of `mergeWithOverlap` (this is the
whole function in the unguarded `page.tsx` variant). -/
def mergeCore (prev fragment : List Char) : List Char :=
  prev ++ fragment.drop (findOverlap prev fragment (min prev.length fragment.length))

/-- Model of `mergeWithOverlap` on character lists, guarded variant (empty check first). -/
def mergeWithOverlapL (prev fragment : List Char) : List Char :=
  if prev = [] ∨ fragment = [] then (if prev = [] then fragment else prev)
  else mergeCore prev fragment

/-- Model of `mergeWithOverlap` on strings (the guarded `page.tsx` variant). -/
def mergeWithOverlap (prev fragment : String) : String :=
  ⟨mergeWithOverlapL prev.data fragment.data⟩

/-- Model of `mergeWithOverlap` as written in the unguarded `page.tsx` variant (no empty
check; the loop simply does not run when either side is empty). -/
def mergeWithOverlapNoGuard (prev fragment : String) : String :=
  ⟨mergeCore prev.data fragment.data⟩

end Client

namespace PRFilters

/-!
Faithful model of `src/lib/pr-filters.ts` (the conservative variant used by the
route: lenient meaningful-change counter, result capped at 5).
-/

/-- The filter policy record (`PRFilter` in the source). -/
structure PRFilter where
  minDiffSize : Nat
  excludePatterns : List String
  minCodeChanges : Nat
  excludeLabels : List String
  includeLabels : List String
deriving DecidableEq

/-- One unit of change (`DiffItem` in the source). -/
structure DiffItem where
  id : String
  description : String
  diff : String
  url : String
deriving DecidableEq

/-- Model of `DEFAULT_FILTERS` from `pr-filters.ts`. -/
def DEFAULT_FILTERS : PRFilter :=
  { minDiffSize := 10
    minCodeChanges := 3
    excludePatterns := ["docs", "typos", "formatting", "chore", "style", "lint",
      "bump", "update", "deps", "dependency", "version"]
    excludeLabels := ["documentation", "chore", "style", "dependencies",
      "maintenance", "housekeeping"]
    includeLabels := ["feature", "enhancement", "bugfix", "fix", "performance",
      "security", "refactor"] }

/-- Model of `isMeaningfulCodeChange` from `pr-filters.ts`: skip lines that trim to
nothing or whose trimmed form starts with a comment marker, and lines that are
just a diff sign plus whitespace. -/
def isMeaningfulCodeChange (line : List Char) : Bool :=
  if trimL line = [] || startsL ['/', '/'] (trimL line)
      || startsL ['/', '*'] (trimL line) then false
  else if removeWs line = ['+'] || removeWs line = ['-'] then false
  else true

/-- The line-list pipeline of `countMeaningfulChanges`: keep `+`/`-` lines,
then keep meaningful ones, and count. -/
def countML (ls : List (List Char)) : Nat :=
  ((ls.filter (fun line => startsL ['+'] line || startsL ['-'] line)).filter
    isMeaningfulCodeChange).length

/-- Model of `countMeaningfulChanges` from `pr-filters.ts`: split at newlines and apply
the pipeline. -/
def countMeaningfulChanges (diff : String) : Nat := countML (splitNl diff.data)

/-- Model of `isRelevantPR` from `pr-filters.ts`: the five short-circuit checks in source
order. -/
def isRelevantPR (pr : DiffItem) (f : PRFilter) : Bool :=
  if f.excludePatterns.any
      (fun pat => containsSub (lowerL pr.description.data) (lowerL pat.data)) then false
  else if (splitNl pr.diff.data).length < f.minDiffSize then false
  else if countMeaningfulChanges pr.diff < f.minCodeChanges then false
  else if f.excludeLabels.any
      (fun lab => containsSub (lowerL pr.description.data) (lowerL lab.data)) then false
  else if f.includeLabels.length > 0 && !(f.includeLabels.any
      (fun lab => containsSub (lowerL pr.description.data) (lowerL lab.data))) then false
  else true

/-- Model of `filterPRs` from `pr-filters.ts`: filter then `slice(0, 5)`. -/
def filterPRs (prs : List DiffItem) (f : PRFilter) : List DiffItem :=
  (prs.filter (fun pr => isRelevantPR pr f)).take 5

end PRFilters

namespace PRFiltersAlt

/-!
Faithful model of the permissive/stricter `pr-filters` variant (part_000 of the
unnamed sources): the counter additionally drops version-number and
dependency-manifest lines, and `filterPRs` is uncapped.  `PRFilter` and
`DiffItem` are re-declared identically in that file; the `PRFilters` structures
are reused here.
-/

open PRFilters (PRFilter DiffItem)

/-- Model of `DEFAULT_FILTERS` from the stricter variant. -/
def DEFAULT_FILTERS : PRFilter :=
  { minDiffSize := 4
    minCodeChanges := 2
    excludePatterns := ["typos", "formatting", "style", "lint",
      "bump", "update", "deps", "dependency", "version",
      "chore", "docs", "test", "ci", "build",
      "minor", "patch", "trivial", "cleanup"]
    excludeLabels := ["documentation", "chore", "style", "dependencies",
      "maintenance", "housekeeping", "tests", "ci",
      "build", "minor", "patch", "trivial"]
    includeLabels := ["feature", "enhancement", "bugfix", "fix",
      "performance", "security", "refactor", "breaking", "release"] }

/-- ASCII digit test (`\d` in the source regex). -/
def isDigitC (c : Char) : Bool := if '0' ≤ c ∧ c ≤ '9' then true else false

/-- Consume a run of digits. -/
def dropDigits : List Char → List Char
  | [] => []
  | c :: rest => if isDigitC c then dropDigits rest else c :: rest

/-- Require at least one digit, then consume the run (`\d+`; because the regex
continues with a literal dot, maximal munch is equivalent to backtracking). -/
def scanDigits : List Char → Option (List Char)
  | [] => none
  | c :: rest => if isDigitC c then some (dropDigits rest) else none

/-- Does `v\d+\.\d+\.\d+` (case-insensitive in the `v`) match at this position? -/
def semverAt : List Char → Bool
  | [] => false
  | c :: rest =>
    (c = 'v' || c = 'V') &&
      (match scanDigits rest with
       | none => false
       | some r1 =>
         match r1 with
         | '.' :: r2 =>
           (match scanDigits r2 with
            | none => false
            | some r3 =>
              match r3 with
              | '.' :: r4 => (scanDigits r4).isSome
              | _ => false)
         | _ => false)

/-- Does `v\d+\.\d+\.\d+` match anywhere in the line? -/
def semverHit (l : List Char) : Bool := anyTail semverAt l

/-- Model of `line.match(/version|v\d+\.\d+\.\d+/i)` being truthy. -/
def matchesVersionRe (line : List Char) : Bool :=
  containsSub (lowerL line) "version".data || semverHit line

/-- Model of `line.match(/dependencies|devDependencies|peerDependencies/i)`
being truthy: each alternative contains "dependencies" once case-folded, so the
match reduces to a case-insensitive substring search for it. -/
def matchesDepsRe (line : List Char) : Bool :=
  containsSub (lowerL line) "dependencies".data

/-- Model of `isMeaningfulCodeChange` from the stricter variant: the lenient checks plus
the version-number and dependency-manifest exclusions. -/
def isMeaningfulCodeChange (line : List Char) : Bool :=
  if trimL line = [] || startsL ['/', '/'] (trimL line)
      || startsL ['/', '*'] (trimL line) then false
  else if removeWs line = ['+'] || removeWs line = ['-'] then false
  else if matchesVersionRe line then false
  else if matchesDepsRe line then false
  else true

/-- The line-list pipeline of the stricter `countMeaningfulChanges`. -/
def countML (ls : List (List Char)) : Nat :=
  ((ls.filter (fun line => startsL ['+'] line || startsL ['-'] line)).filter
    isMeaningfulCodeChange).length

/-- Model of `countMeaningfulChanges` from the stricter variant. -/
def countMeaningfulChanges (diff : String) : Nat := countML (splitNl diff.data)

/-- Model of `isRelevantPR` from the stricter variant (same checks, its own counter). -/
def isRelevantPR (pr : DiffItem) (f : PRFilter) : Bool :=
  if f.excludePatterns.any
      (fun pat => containsSub (lowerL pr.description.data) (lowerL pat.data)) then false
  else if (splitNl pr.diff.data).length < f.minDiffSize then false
  else if countMeaningfulChanges pr.diff < f.minCodeChanges then false
  else if f.excludeLabels.any
      (fun lab => containsSub (lowerL pr.description.data) (lowerL lab.data)) then false
  else if f.includeLabels.length > 0 && !(f.includeLabels.any
      (fun lab => containsSub (lowerL pr.description.data) (lowerL lab.data))) then false
  else true

/-- Model of `filterPRs` from the stricter variant: filter only, no cap. -/
def filterPRs (prs : List DiffItem) (f : PRFilter) : List DiffItem :=
  prs.filter (fun pr => isRelevantPR pr f)

end PRFiltersAlt

/-- Count, per the specification's wording for the lenient counter: the number
of lines beginning with `+` or `-` that are not whitespace-only (removing every
whitespace character leaves more than the bare diff sign). -/
def countNonWsPMLines (diff : String) : Nat :=
  ((splitNl diff.data).filter
    (fun l => (startsL ['+'] l || startsL ['-'] l)
      && !(decide (removeWs l = ['+']) || decide (removeWs l = ['-'])))).length

namespace Wire

/-!
The wire protocol of `route.ts` / the client page: each frame is one SSE event.
Data frames are `data: <json>\n\n` with the JSON produced by
`JSON.stringify({ prId, section, ...obj })`; error frames are
`event: error\ndata: <json>\n\n`.  JSON serialization of these fixed record
shapes is modelled exactly (compact output, insertion-order keys, standard
string escaping); the parser below is the partial inverse of `JSON.parse`
restricted to the record shapes this encoder emits — on those payloads it
agrees with `JSON.parse` plus the client's destructuring.
-/

/-- The two note channels (`section` field on the wire). -/
inductive Channel where
  | developer
  | marketing
deriving DecidableEq

/-- Wire name of a channel. -/
def channelName : Channel → String
  | .developer => "developer"
  | .marketing => "marketing"

/-- One protocol frame as emitted by the route: a content fragment, a channel
completion marker, or a fatal error. -/
inductive StreamFrame where
  | content (prId : String) (channel : Channel) (content : String)
  | done (prId : String) (channel : Channel)
  | error (message : String)
deriving DecidableEq

/-- Is this an error frame? -/
def isErrorB : StreamFrame → Bool
  | .error _ => true
  | _ => false

/-- Is this a marketing-channel frame (content or completion) of the given item? -/
def isMktOf (prId : String) : StreamFrame → Bool
  | .content i Channel.marketing _ => i == prId
  | .done i Channel.marketing => i == prId
  | _ => false

/-- Is this the developer-channel completion frame of the given item? -/
def isDevDoneB (prId : String) : StreamFrame → Bool
  | .done i Channel.developer => i == prId
  | _ => false

/-- Is this the marketing-channel completion frame of the given item? -/
def isMktDoneB (prId : String) : StreamFrame → Bool
  | .done i Channel.marketing => i == prId
  | _ => false

/-- Is this a frame (content or completion) belonging to the given item? -/
def isOfItemB (prId : String) : StreamFrame → Bool
  | .content i _ _ => i == prId
  | .done i _ => i == prId
  | _ => false

/-- Lower-case hex digit, as produced by `JSON.stringify` control escapes. -/
def hexDigitChar (n : Nat) : Char :=
  if n < 10 then Char.ofNat (48 + n) else Char.ofNat (87 + n)

/-- Model of `JSON.stringify` escaping of one character inside a string literal. -/
def escChar (c : Char) : List Char :=
  if c = '"' then ['\\', '"']
  else if c = '\\' then ['\\', '\\']
  else if c = '\n' then ['\\', 'n']
  else if c = '\r' then ['\\', 'r']
  else if c = '\t' then ['\\', 't']
  else if c.toNat = 8 then ['\\', 'b']
  else if c.toNat = 12 then ['\\', 'f']
  else if c.toNat < 32 then
    ['\\', 'u', '0', '0', hexDigitChar (c.toNat / 16), hexDigitChar (c.toNat % 16)]
  else [c]

/-- Model of `JSON.stringify` escaping of a whole string body. -/
def escapeJson (s : List Char) : List Char := (s.map escChar).flatten

/-- Hex digit value (both cases), for `\uXXXX` escapes. -/
def hexVal (c : Char) : Option Nat :=
  if '0' ≤ c ∧ c ≤ '9' then some (c.toNat - 48)
  else if 'a' ≤ c ∧ c ≤ 'f' then some (c.toNat - 87)
  else if 'A' ≤ c ∧ c ≤ 'F' then some (c.toNat - 55)
  else none

/-- Prepend a decoded character to a string-literal parse result. -/
def consStr (c : Char) (o : Option (List Char × List Char)) :
    Option (List Char × List Char) :=
  o.map (fun p => (c :: p.1, p.2))

/-- Parse the body of a JSON string literal (after its opening quote): returns
the decoded characters and the input remaining after the closing quote. -/
def parseStrAux : List Char → Option (List Char × List Char)
  | [] => none
  | c :: rest =>
    if c = '"' then some ([], rest)
    else if c = '\\' then
      match rest with
      | [] => none
      | e :: rest2 =>
        if e = '"' then consStr '"' (parseStrAux rest2)
        else if e = '\\' then consStr '\\' (parseStrAux rest2)
        else if e = '/' then consStr '/' (parseStrAux rest2)
        else if e = 'n' then consStr '\n' (parseStrAux rest2)
        else if e = 'r' then consStr '\r' (parseStrAux rest2)
        else if e = 't' then consStr '\t' (parseStrAux rest2)
        else if e = 'b' then consStr (Char.ofNat 8) (parseStrAux rest2)
        else if e = 'f' then consStr (Char.ofNat 12) (parseStrAux rest2)
        else if e = 'u' then
          match rest2 with
          | h1 :: h2 :: h3 :: h4 :: rest3 =>
            match hexVal h1, hexVal h2, hexVal h3, hexVal h4 with
            | some a, some b, some c2, some d =>
              consStr (Char.ofNat (((a * 16 + b) * 16 + c2) * 16 + d)) (parseStrAux rest3)
            | _, _, _, _ => none
          | _ => none
        else none
    else if c.toNat < 32 then none
    else consStr c (parseStrAux rest)

/-- Decode the wire channel name. -/
def parseChannel (s : List Char) : Option Channel :=
  if s = "developer".data then some .developer
  else if s = "marketing".data then some .marketing
  else none

/-- Model of `JSON.stringify({prId, section, content})` (compact, insertion order). -/
def contentPayload (prId : String) (ch : Channel) (c : String) : List Char :=
  "\x7b\"prId\":\"".data ++ (escapeJson prId.data ++ ('"' ::
    (",\"section\":\"".data ++ (escapeJson (channelName ch).data ++ ('"' ::
      (",\"content\":\"".data ++ (escapeJson c.data ++ ('"' :: ['\x7d']))))))))

/-- Model of `JSON.stringify({prId, section, done: true})`. -/
def donePayload (prId : String) (ch : Channel) : List Char :=
  "\x7b\"prId\":\"".data ++ (escapeJson prId.data ++ ('"' ::
    (",\"section\":\"".data ++ (escapeJson (channelName ch).data ++ ('"' ::
      ",\"done\":true\x7d".data)))))

/-- Model of `JSON.stringify({message})`. -/
def errorPayload (msg : String) : List Char :=
  "\x7b\"message\":\"".data ++ (escapeJson msg.data ++ ('"' :: ['\x7d']))

/-- Serialize a frame's JSON payload. -/
def encodePayload : StreamFrame → List Char
  | .content prId ch c => contentPayload prId ch c
  | .done prId ch => donePayload prId ch
  | .error msg => errorPayload msg

/-- Parse a data-frame JSON payload: the partial inverse of `JSON.parse` plus
the client's field destructuring, restricted to the shapes the route emits. -/
def parsePayload (s : List Char) : Option StreamFrame :=
  match dropLit "\x7b\"prId\":\"".data s with
  | none => none
  | some s1 =>
    match parseStrAux s1 with
    | none => none
    | some (prId, s2) =>
      match dropLit ",\"section\":\"".data s2 with
      | none => none
      | some s3 =>
        match parseStrAux s3 with
        | none => none
        | some (sec, s4) =>
          match parseChannel sec with
          | none => none
          | some ch =>
            match dropLit ",\"content\":\"".data s4 with
            | some s5 =>
              match parseStrAux s5 with
              | none => none
              | some (c, s6) =>
                if s6 = ['\x7d'] then some (.content ⟨prId⟩ ch ⟨c⟩) else none
            | none =>
              match dropLit ",\"done\":true\x7d".data s4 with
              | some s5 => if s5 = [] then some (.done ⟨prId⟩ ch) else none
              | none => none

end Wire

namespace Route

/-!
Model of the streaming side of `route.ts` (`POST`): the `send`/`sendError`
record formats, and the per-item orchestration loop with its `try`/`catch`
structure.  The external generation capability is modelled per channel by a
`ChannelRun`: whether the `create` call succeeds, the fragments the stream
yields before finishing, and whether the iteration finishes without error
(`streamOk = false` means the stream throws after yielding `frags`).  Writes to
the transform stream are modelled as succeeding.
-/

/-- One generation-capability run for a single channel of a single item. -/
structure ChannelRun where
  createOk : Bool
  frags : List String
  streamOk : Bool
  errMsg : String
deriving DecidableEq

/-- The two channel runs of one item. -/
structure ItemRun where
  dev : ChannelRun
  mkt : ChannelRun
deriving DecidableEq

/-- How an item's processing ended: fully successful, failed inside the
per-item `try` (item error frame emitted, then rethrown), or failed at the
initial developer `create` call, outside the per-item `try`. -/
inductive ItemOutcome where
  | success
  | innerFail
  | outerFail
deriving DecidableEq

/-- Content frames for the fragments a stream yields: the route only sends a
fragment when it is truthy (nonempty). -/
def contentFrames (prId : String) (ch : Wire.Channel) (frags : List String) :
    List Wire.StreamFrame :=
  (frags.filter (fun s => !(s == ""))).map (fun s => Wire.StreamFrame.content prId ch s)

/-- The inner catch's error frame: `Error processing PR ${id}: ${message}`. -/
def itemErrorFrame (prId msg : String) : Wire.StreamFrame :=
  .error ("Error processing PR " ++ prId ++ ": " ++ msg)

/-- The outer catch's error frame. -/
def genericErrorFrame : Wire.StreamFrame :=
  .error "Internal error while generating notes. Please retry."

/-- Frames emitted while processing one item, and how the item ended: channel
open marker (empty content), content frames, completion marker for the
developer channel, then the same for marketing; on failure, the frames stop at
the failure point, followed by the inner catch's error frame when the failure
happened inside the per-item `try`. -/
def itemFrames (prId : String) (r : ItemRun) : List Wire.StreamFrame × ItemOutcome :=
  if r.dev.createOk = false then ([], .outerFail)
  else
    let devFs := Wire.StreamFrame.content prId .developer "" ::
      contentFrames prId .developer r.dev.frags
    if r.dev.streamOk = false then
      (devFs ++ [itemErrorFrame prId r.dev.errMsg], .innerFail)
    else
      let devC := devFs ++ [Wire.StreamFrame.done prId .developer]
      if r.mkt.createOk = false then
        (devC ++ [itemErrorFrame prId r.mkt.errMsg], .innerFail)
      else
        let mktFs := devC ++ (Wire.StreamFrame.content prId .marketing "" ::
          contentFrames prId .marketing r.mkt.frags)
        if r.mkt.streamOk = false then
          (mktFs ++ [itemErrorFrame prId r.mkt.errMsg], .innerFail)
        else
          (mktFs ++ [Wire.StreamFrame.done prId .marketing], .success)

/-- The orchestration loop over the accepted items: items are processed
sequentially; the first failure ends the loop, and the outer catch then emits
the generic error frame (the `finally` block closes the writer in every case). -/
def orchestrate : List (String × ItemRun) → List Wire.StreamFrame
  | [] => []
  | (prId, r) :: rest =>
    match itemFrames prId r with
    | (fs, ItemOutcome.success) => fs ++ orchestrate rest
    | (fs, _) => fs ++ [genericErrorFrame]

/-- Record body of one SSE event as written by `send` / `sendError`
(without the terminating blank line). -/
def recordBody : Wire.StreamFrame → List Char
  | .content prId ch c => "data: ".data ++ Wire.contentPayload prId ch c
  | .done prId ch => "data: ".data ++ Wire.donePayload prId ch
  | .error msg => "event: error\ndata: ".data ++ Wire.errorPayload msg

/-- One full SSE event: record body plus the `\n\n` separator. -/
def encodeFrame (f : Wire.StreamFrame) : List Char := recordBody f ++ ['\n', '\n']

/-- The byte stream produced by emitting a sequence of frames. -/
def encodeFrames (frames : List Wire.StreamFrame) : List Char :=
  (frames.map encodeFrame).flatten

end Route

namespace Client

/-!
The client decode loop from `generateNotes` (part_001): accumulate chunks in a
buffer, repeatedly split at `\n\n`, trim each raw event, keep only `data:`
events, parse the JSON payload, and fold the parsed frames into the per-item
notes map with `mergeWithOverlap` (done frames are skipped via
`if (streamDone) continue`; frames without a recognized shape are skipped).
-/

/-- Model of `buffer.indexOf("\n\n")` plus the split: the first event and the
remainder, or `none` when no separator is present. -/
def findEvent : List Char → Option (List Char × List Char)
  | c1 :: c2 :: rest =>
    if c1 = '\n' ∧ c2 = '\n' then some ([], rest)
    else
      match findEvent (c2 :: rest) with
      | none => none
      | some (ev, r) => some (c1 :: ev, r)
  | _ => none

/-- Decode one raw SSE event the way the client does: trim, require the
`data:` marker, strip it, trim, skip empties, parse the JSON payload. -/
def decodeEvent (ev : List Char) : Option Wire.StreamFrame :=
  match dropLit "data:".data (trimL ev) with
  | none => none
  | some r =>
    let json := trimL r
    if json = [] then none else Wire.parsePayload json

/-- The inner `while` loop: extract events while a separator exists.  The fuel
argument only bounds the iteration count (each extraction removes at least the
two separator characters), so fuel `= buffer length` never runs out. -/
def decodeLoop : Nat → List Char → List Wire.StreamFrame × List Char
  | 0, buf => ([], buf)
  | fuel + 1, buf =>
    match findEvent buf with
    | none => ([], buf)
    | some (ev, rest) =>
      let p := decodeLoop fuel rest
      ((decodeEvent ev).toList ++ p.1, p.2)

/-- Drain every complete event currently in the buffer; returns the decoded
frames and the leftover buffer (which contains no separator). -/
def processBuffer (buf : List Char) : List Wire.StreamFrame × List Char :=
  decodeLoop buf.length buf

/-- The outer read loop: append each chunk to the buffer and drain it; on
stream end the remaining buffer is discarded. -/
def feedChunks : List Char → List (List Char) → List Wire.StreamFrame
  | _, [] => []
  | buf, c :: cs =>
    let p := processBuffer (buf ++ c)
    p.1 ++ feedChunks p.2 cs

/-- Frames decoded from a chunked byte stream, in order. -/
def decodeStream (chunks : List (List Char)) : List Wire.StreamFrame :=
  feedChunks [] chunks

/-- Accumulated note texts for one item (`notesByPR[id]`). -/
structure NoteState where
  developer : String
  marketing : String
deriving DecidableEq

/-- The client's `notesByPR` record, as an association list. -/
abbrev NotesMap := List (String × NoteState)

/-- Model of `prev[prId] ?? { developer: "", marketing: "" }`. -/
def getNote : NotesMap → String → NoteState
  | [], _ => ⟨"", ""⟩
  | (k, w) :: rest, prId => if k = prId then w else getNote rest prId

/-- Model of `{ ...prev, [prId]: current }`: replace in place or append. -/
def setNote : NotesMap → String → NoteState → NotesMap
  | [], prId, v => [(prId, v)]
  | (k, w) :: rest, prId, v =>
    if k = prId then (prId, v) :: rest else (k, w) :: setNote rest prId v

/-- The reducer body of `setNotesByPR`: merge a content fragment into the named
channel; done frames (`if (streamDone) continue`) and error frames (which never
parse as data frames) leave the state unchanged. -/
def applyFrame (st : NotesMap) : Wire.StreamFrame → NotesMap
  | .content prId Wire.Channel.developer c =>
    let cur := getNote st prId
    setNote st prId ⟨mergeWithOverlap cur.developer c, cur.marketing⟩
  | .content prId Wire.Channel.marketing c =>
    let cur := getNote st prId
    setNote st prId ⟨cur.developer, mergeWithOverlap cur.marketing c⟩
  | .done _ _ => st
  | .error _ => st

/-- The whole client pipeline on a chunked stream: decode, then fold the frames
into the notes map. -/
def runClient (st : NotesMap) (chunks : List (List Char)) : NotesMap :=
  (decodeStream chunks).foldl applyFrame st

end Client

/-- Temporal ordering property over an emitted frame list: every frame
satisfying `q` is strictly preceded by some frame satisfying `p`. -/
def orderedFrames (p q : Wire.StreamFrame → Bool) (fs : List Wire.StreamFrame) : Prop :=
  ∀ u f v, fs = u ++ f :: v → q f = true → ∃ g ∈ u, p g = true

namespace ClientLemmas

open Client

theorem findOverlap_le (prev fragment : List Char) :
    ∀ m, findOverlap prev fragment m ≤ m := by
  intro m
  induction m with
  | zero => simp [findOverlap]
  | succ k ih =>
    unfold findOverlap
    split
    · exact Nat.le_refl _
    · exact Nat.le_trans ih (Nat.le_succ k)

theorem findOverlap_eq (prev fragment : List Char) :
    ∀ m, prev.drop (prev.length - findOverlap prev fragment m)
      = fragment.take (findOverlap prev fragment m) := by
  intro m
  induction m with
  | zero => simp [findOverlap]
  | succ k ih =>
    unfold findOverlap
    split
    · assumption
    · exact ih

theorem findOverlap_max (prev fragment : List Char) :
    ∀ m j, j ≤ m → prev.drop (prev.length - j) = fragment.take j →
      j ≤ findOverlap prev fragment m := by
  intro m
  induction m with
  | zero => intro j hj _; simpa [findOverlap] using hj
  | succ k ih =>
    intro j hj heq
    unfold findOverlap
    split
    · exact hj
    · rename_i hne
      rcases Nat.lt_or_ge j (k + 1) with hlt | hge
      · exact ih j (Nat.lt_succ_iff.mp hlt) heq
      · have hj' : j = k + 1 := Nat.le_antisymm hj hge
        subst hj'
        exact absurd heq hne

theorem data_nil_iff (s : String) : s.data = [] ↔ s = "" := by
  cases s with
  | mk d =>
    constructor
    · intro h
      have hd : d = [] := h
      subst hd
      rfl
    · intro h
      rw [h]

theorem merge_nil_left (x : String) : Client.mergeWithOverlap "" x = x := by
  cases x with
  | mk d =>
    show (⟨mergeWithOverlapL [] d⟩ : String) = ⟨d⟩
    unfold mergeWithOverlapL
    simp

theorem merge_nil_right (x : String) : Client.mergeWithOverlap x "" = x := by
  cases x with
  | mk d =>
    show (⟨mergeWithOverlapL d []⟩ : String) = ⟨d⟩
    unfold mergeWithOverlapL
    by_cases hd : d = [] <;> simp [hd]

theorem merge_data_of_ne (prev fragment : String) (hp : prev.data ≠ [])
    (hf : fragment.data ≠ []) :
    (Client.mergeWithOverlap prev fragment).data = mergeCore prev.data fragment.data := by
  show (mergeWithOverlapL prev.data fragment.data) = _
  unfold mergeWithOverlapL
  simp [hp, hf]

theorem mergeCore_of_suffix (prev fragment : List Char)
    (h : ∃ u, prev = u ++ fragment) : mergeCore prev fragment = prev := by
  obtain ⟨u, hu⟩ := h
  have hlen : fragment.length ≤ prev.length := by
    subst hu; simp
  have hmin : min prev.length fragment.length = fragment.length :=
    Nat.min_eq_right hlen
  have hsuf : prev.drop (prev.length - fragment.length) = fragment.take fragment.length := by
    subst hu
    simp [List.take_length]
  have hk : findOverlap prev fragment fragment.length = fragment.length := by
    cases hfl : fragment.length with
    | zero => simp [findOverlap]
    | succ n =>
      rw [hfl] at hsuf
      unfold findOverlap
      rw [if_pos hsuf]
  unfold mergeCore
  rw [hmin, hk]
  simp

end ClientLemmas

namespace FilterLemmas

theorem dropWhile_append_last (p : Char → Bool) (xs : List Char) (c : Char)
    (h : p c = false) :
    ∃ ds, List.dropWhile p (xs ++ [c]) = ds ++ [c] := by
  induction xs with
  | nil => exact ⟨[], by simp [List.dropWhile, h]⟩
  | cons x xs ih =>
    by_cases hx : p x = true
    · simpa [List.dropWhile_cons, hx] using ih
    · exact ⟨x :: xs, by simp [List.dropWhile_cons, hx]⟩

theorem trim_cons (c : Char) (t : List Char) (hc : isWsChar c = false) :
    ∃ t', trimL (c :: t) = c :: t' := by
  unfold trimL
  rw [List.dropWhile_cons, if_neg (by simp [hc])]
  have hrev : (c :: t).reverse = t.reverse ++ [c] := by simp
  rw [hrev]
  obtain ⟨ds, hds⟩ := dropWhile_append_last isWsChar t.reverse c hc
  rw [hds]
  exact ⟨ds.reverse, by simp⟩

theorem startsL_singleton (c0 : Char) (l : List Char) (h : startsL [c0] l = true) :
    ∃ t, l = c0 :: t := by
  cases l with
  | nil => simp [startsL] at h
  | cons c cs =>
    refine ⟨cs, ?_⟩
    have : c0 = c := by
      by_cases hc : c0 = c
      · exact hc
      · simp [startsL, hc] at h
    rw [this]

theorem meaningful_pm (c : Char) (t : List Char) (hc : c = '+' ∨ c = '-') :
    PRFilters.isMeaningfulCodeChange (c :: t)
      = !(decide (removeWs (c :: t) = ['+']) || decide (removeWs (c :: t) = ['-'])) := by
  have hws : isWsChar c = false := by
    rcases hc with h | h <;> subst h <;> decide
  obtain ⟨t', ht'⟩ := trim_cons c t hws
  have hsl1 : startsL ['/', '/'] (c :: t') = false := by
    rcases hc with h | h <;> subst h <;> simp [startsL]
  have hsl2 : startsL ['/', '*'] (c :: t') = false := by
    rcases hc with h | h <;> subst h <;> simp [startsL]
  unfold PRFilters.isMeaningfulCodeChange
  rw [ht', hsl1, hsl2]
  simp only [Bool.or_false, decide_eq_true_eq]
  rw [if_neg (by simp)]
  split <;> simp_all <;> tauto

theorem countML_append (a b : List (List Char)) :
    PRFilters.countML (a ++ b) = PRFilters.countML a + PRFilters.countML b := by
  unfold PRFilters.countML
  simp [List.filter_append]

theorem countML_alt_append (a b : List (List Char)) :
    PRFiltersAlt.countML (a ++ b) = PRFiltersAlt.countML a + PRFiltersAlt.countML b := by
  unfold PRFiltersAlt.countML
  simp [List.filter_append]

end FilterLemmas
namespace WireLemmas

theorem hexVal_hexDigitChar : ∀ n, n < 16 → Wire.hexVal (Wire.hexDigitChar n) = some n := by
  decide

theorem escapeJson_cons (c : Char) (s : List Char) :
    Wire.escapeJson (c :: s) = Wire.escChar c ++ Wire.escapeJson s := by
  simp [Wire.escapeJson]

theorem parse_escape : ∀ (s rest : List Char),
    Wire.parseStrAux (Wire.escapeJson s ++ '"' :: rest) = some (s, rest) := by
  intro s
  induction s with
  | nil =>
    intro rest
    show Wire.parseStrAux (Wire.escapeJson [] ++ '"' :: rest) = _
    rw [show Wire.escapeJson [] = [] from rfl, List.nil_append, Wire.parseStrAux.eq_def]
    simp
  | cons c s ih =>
    intro rest
    rw [escapeJson_cons, List.append_assoc]
    unfold Wire.escChar
    split_ifs with h1 h2 h3 h4 h5 h6 h7 h8
    · subst h1
      rw [Wire.parseStrAux.eq_def]
      simp [Wire.consStr, ih]
    · subst h2
      rw [Wire.parseStrAux.eq_def]
      simp [Wire.consStr, ih]
    · subst h3
      rw [Wire.parseStrAux.eq_def]
      simp [Wire.consStr, ih]
    · subst h4
      rw [Wire.parseStrAux.eq_def]
      simp [Wire.consStr, ih]
    · subst h5
      rw [Wire.parseStrAux.eq_def]
      simp [Wire.consStr, ih]
    · have hc : c = Char.ofNat 8 := by rw [← h6, Char.ofNat_toNat]
      subst hc
      rw [Wire.parseStrAux.eq_def]
      simp [Wire.consStr, ih]
    · have hc : c = Char.ofNat 12 := by rw [← h7, Char.ofNat_toNat]
      subst hc
      rw [Wire.parseStrAux.eq_def]
      simp [Wire.consStr, ih]
    · have hdiv : c.toNat / 16 < 16 := by omega
      have hmod : c.toNat % 16 < 16 := Nat.mod_lt _ (by norm_num)
      rw [Wire.parseStrAux.eq_def]
      simp only [List.cons_append]
      simp [Wire.consStr, ih, hexVal_hexDigitChar _ hdiv, hexVal_hexDigitChar _ hmod]
      show some (Char.ofNat (((0 * 16 + 0) * 16 + c.toNat / 16) * 16 + c.toNat % 16) :: s, rest)
        = some (c :: s, rest)
      rw [show ((0 * 16 + 0) * 16 + c.toNat / 16) * 16 + c.toNat % 16 = c.toNat from by omega,
        Char.ofNat_toNat]
    · rw [show ([c] : List Char) ++ (Wire.escapeJson s ++ '"' :: rest)
          = c :: (Wire.escapeJson s ++ '"' :: rest) from rfl]
      rw [Wire.parseStrAux.eq_def]
      simp [h1, h2, h8, Wire.consStr, ih]

end WireLemmas

namespace WireLemmas2
open WireLemmas

theorem dropLit_pre : ∀ (p r : List Char), dropLit p (p ++ r) = some r := by
  intro p
  induction p with
  | nil => intro r; rfl
  | cons c p ih => intro r; simp [dropLit, ih]

theorem parse_channelName (ch : Wire.Channel) :
    Wire.parseChannel (Wire.channelName ch).data = some ch := by
  cases ch <;> decide

theorem parse_content (prId : String) (ch : Wire.Channel) (c : String) :
    Wire.parsePayload (Wire.contentPayload prId ch c)
      = some (.content prId ch c) := by
  unfold Wire.parsePayload Wire.contentPayload
  simp only [dropLit_pre, parse_escape, parse_channelName,
    show ∀ X, dropLit ",\"content\":\"".data (",\"content\":\"".data ++ X) = some X from
      fun X => dropLit_pre _ X]
  rfl

theorem parse_done (prId : String) (ch : Wire.Channel) :
    Wire.parsePayload (Wire.donePayload prId ch) = some (.done prId ch) := by
  unfold Wire.parsePayload Wire.donePayload
  simp only [dropLit_pre, parse_escape, parse_channelName,
    show dropLit ",\"content\":\"".data ",\"done\":true\x7d".data = none from by decide,
    show dropLit ",\"done\":true\x7d".data ",\"done\":true\x7d".data = some [] from by decide]
  rfl

theorem trim_shape (a : Char) (m : List Char) (b : Char)
    (hwa : isWsChar a = false) (hwb : isWsChar b = false) :
    trimL (a :: (m ++ [b])) = a :: (m ++ [b]) := by
  unfold trimL
  rw [List.dropWhile_cons, if_neg (by simp [hwa])]
  have hrev : (a :: (m ++ [b])).reverse = b :: (m.reverse ++ [a]) := by simp
  rw [hrev, List.dropWhile_cons, if_neg (by simp [hwb]), ← hrev, List.reverse_reverse]

theorem payload_shape (f : Wire.StreamFrame) :
    ∃ m, Wire.encodePayload f = '\x7b' :: (m ++ ['\x7d']) := by
  cases f with
  | content prId ch c =>
    refine ⟨"\"prId\":\"".data ++ (Wire.escapeJson prId.data ++ ('"' ::
      (",\"section\":\"".data ++ (Wire.escapeJson (Wire.channelName ch).data ++ ('"' ::
        (",\"content\":\"".data ++ (Wire.escapeJson c.data ++ ['"']))))))), ?_⟩
    show Wire.contentPayload prId ch c = _
    unfold Wire.contentPayload
    rw [show "\x7b\"prId\":\"".data = '\x7b' :: "\"prId\":\"".data from rfl]
    simp
  | done prId ch =>
    refine ⟨"\"prId\":\"".data ++ (Wire.escapeJson prId.data ++ ('"' ::
      (",\"section\":\"".data ++ (Wire.escapeJson (Wire.channelName ch).data ++ ('"' ::
        ",\"done\":true".data))))), ?_⟩
    show Wire.donePayload prId ch = _
    unfold Wire.donePayload
    rw [show "\x7b\"prId\":\"".data = '\x7b' :: "\"prId\":\"".data from rfl,
      show (",\"done\":true\x7d" : String).data = ",\"done\":true".data ++ ['\x7d'] from rfl]
    simp
  | error msg =>
    refine ⟨"\"message\":\"".data ++ (Wire.escapeJson msg.data ++ ['"']), ?_⟩
    show Wire.errorPayload msg = _
    unfold Wire.errorPayload
    rw [show "\x7b\"message\":\"".data = '\x7b' :: "\"message\":\"".data from rfl]
    simp

theorem trim_recordBody (f : Wire.StreamFrame) :
    trimL (Route.recordBody f) = Route.recordBody f := by
  obtain ⟨m, hm⟩ := payload_shape f
  cases f with
  | content prId ch c =>
    have hb : Route.recordBody (.content prId ch c)
        = 'd' :: (("ata: ".data ++ '\x7b' :: m) ++ ['\x7d']) := by
      show "data: ".data ++ Wire.contentPayload prId ch c = _
      rw [show Wire.contentPayload prId ch c
          = Wire.encodePayload (.content prId ch c) from rfl, hm,
        show "data: ".data = 'd' :: "ata: ".data from rfl]
      simp
    rw [hb]
    exact trim_shape 'd' _ '\x7d' (by decide) (by decide)
  | done prId ch =>
    have hb : Route.recordBody (.done prId ch)
        = 'd' :: (("ata: ".data ++ '\x7b' :: m) ++ ['\x7d']) := by
      show "data: ".data ++ Wire.donePayload prId ch = _
      rw [show Wire.donePayload prId ch = Wire.encodePayload (.done prId ch) from rfl, hm,
        show "data: ".data = 'd' :: "ata: ".data from rfl]
      simp
    rw [hb]
    exact trim_shape 'd' _ '\x7d' (by decide) (by decide)
  | error msg =>
    have hb : Route.recordBody (.error msg)
        = 'e' :: (("vent: error\ndata: ".data ++ '\x7b' :: m) ++ ['\x7d']) := by
      show "event: error\ndata: ".data ++ Wire.errorPayload msg = _
      rw [show Wire.errorPayload msg = Wire.encodePayload (.error msg) from rfl, hm,
        show "event: error\ndata: ".data = 'e' :: "vent: error\ndata: ".data from rfl]
      simp
    rw [hb]
    exact trim_shape 'e' _ '\x7d' (by decide) (by decide)

theorem trim_ws_cons (c : Char) (l : List Char) (h : isWsChar c = true) :
    trimL (c :: l) = trimL l := by
  unfold trimL
  rw [List.dropWhile_cons, if_pos (by simp [h])]

theorem trim_payload (f : Wire.StreamFrame) :
    trimL (Wire.encodePayload f) = Wire.encodePayload f := by
  obtain ⟨m, hm⟩ := payload_shape f
  rw [hm]
  exact trim_shape '\x7b' _ '\x7d' (by decide) (by decide)

theorem decodeEvent_content (prId : String) (ch : Wire.Channel) (c : String) :
    Client.decodeEvent (Route.recordBody (.content prId ch c))
      = some (.content prId ch c) := by
  unfold Client.decodeEvent
  rw [trim_recordBody]
  rw [show Route.recordBody (.content prId ch c)
      = "data:".data ++ (' ' :: Wire.contentPayload prId ch c) from rfl]
  rw [dropLit_pre]
  show (let json := trimL (' ' :: Wire.contentPayload prId ch c);
    if json = [] then none else Wire.parsePayload json) = _
  rw [trim_ws_cons _ _ (by decide),
    show Wire.contentPayload prId ch c = Wire.encodePayload (.content prId ch c) from rfl,
    trim_payload]
  obtain ⟨m, hm⟩ := payload_shape (Wire.StreamFrame.content prId ch c)
  rw [hm]
  rw [if_neg (by simp)]
  rw [← hm]
  exact parse_content prId ch c

theorem decodeEvent_done (prId : String) (ch : Wire.Channel) :
    Client.decodeEvent (Route.recordBody (.done prId ch)) = some (.done prId ch) := by
  unfold Client.decodeEvent
  rw [trim_recordBody]
  rw [show Route.recordBody (.done prId ch)
      = "data:".data ++ (' ' :: Wire.donePayload prId ch) from rfl]
  rw [dropLit_pre]
  show (let json := trimL (' ' :: Wire.donePayload prId ch);
    if json = [] then none else Wire.parsePayload json) = _
  rw [trim_ws_cons _ _ (by decide),
    show Wire.donePayload prId ch = Wire.encodePayload (.done prId ch) from rfl,
    trim_payload]
  obtain ⟨m, hm⟩ := payload_shape (Wire.StreamFrame.done prId ch)
  rw [hm]
  rw [if_neg (by simp)]
  rw [← hm]
  exact parse_done prId ch

theorem decodeEvent_error (msg : String) :
    Client.decodeEvent (Route.recordBody (.error msg)) = none := by
  unfold Client.decodeEvent
  rw [trim_recordBody]
  rw [show Route.recordBody (.error msg)
      = 'e' :: ("vent: error\ndata: ".data ++ Wire.errorPayload msg) from rfl]
  rw [show dropLit "data:".data ('e' :: ("vent: error\ndata: ".data ++ Wire.errorPayload msg))
      = none from by simp [dropLit, show "data:".data = 'd' :: "ata:".data from rfl]]

end WireLemmas2

namespace StreamLemmas

theorem findEvent_append_noNl (u : List Char) (v : List Char) (h : ∀ c ∈ u, c ≠ '\n') :
    Client.findEvent (u ++ v)
      = (Client.findEvent v).map (fun p => (u ++ p.1, p.2)) := by
  induction u with
  | nil =>
    cases hfe : Client.findEvent v <;> simp [hfe]
  | cons a u ih =>
    have ha : a ≠ '\n' := h a (by simp)
    have hu : ∀ c ∈ u, c ≠ '\n' := fun c hc => h c (by simp [hc])
    cases huv : u ++ v with
    | nil =>
      obtain ⟨hu0, hv0⟩ := List.append_eq_nil.mp huv
      subst hu0; subst hv0
      rfl
    | cons b w =>
      rw [List.cons_append, huv, Client.findEvent.eq_def]
      simp only []
      rw [if_neg (fun hand => ha hand.1)]
      rw [← huv, ih hu]
      cases hfe : Client.findEvent v with
      | none => simp [hfe]
      | some p => simp [hfe]

theorem findEvent_nl_cons (d : Char) (w : List Char) (hd : d ≠ '\n') :
    Client.findEvent ('\n' :: d :: w)
      = (Client.findEvent (d :: w)).map (fun p => ('\n' :: p.1, p.2)) := by
  rw [Client.findEvent.eq_def]
  simp only []
  rw [if_neg (fun hand => hd hand.2)]
  cases hfe : Client.findEvent (d :: w) with
  | none => simp [hfe]
  | some p => simp [hfe]

theorem findEvent_shape : ∀ (n : Nat) (u : List Char), u.length ≤ n →
    ∀ ev rest, Client.findEvent u = some (ev, rest) →
      u = ev ++ '\n' :: '\n' :: rest := by
  intro n
  induction n with
  | zero =>
    intro u hu ev rest h
    have : u = [] := List.length_eq_zero.mp (Nat.le_zero.mp hu)
    subst this
    exact absurd h (by simp [Client.findEvent])
  | succ n ih =>
    intro u hu ev rest h
    match u with
    | [] => exact absurd h (by simp [Client.findEvent])
    | [a] => exact absurd h (by simp [Client.findEvent])
    | a :: b :: w =>
      rw [Client.findEvent.eq_def] at h
      simp only [] at h
      by_cases hab : a = '\n' ∧ b = '\n'
      · rw [if_pos hab] at h
        simp at h
        obtain ⟨hev, hrest⟩ := h
        simp [hab.1, hab.2, ← hev, ← hrest]
      · rw [if_neg hab] at h
        cases hfe : Client.findEvent (b :: w) with
        | none => rw [hfe] at h; cases h
        | some p =>
          rw [hfe] at h
          simp at h
          obtain ⟨hev, hrest⟩ := h
          have hlen : (b :: w).length ≤ n := by
            simp at hu ⊢
            omega
          have hbw := ih (b :: w) hlen p.1 p.2 (by rw [hfe])
          rw [← hev, ← hrest]
          rw [List.cons_append, ← hbw]

theorem findEvent_some_shape (u : List Char) (ev rest : List Char)
    (h : Client.findEvent u = some (ev, rest)) : u = ev ++ '\n' :: '\n' :: rest :=
  findEvent_shape u.length u (Nat.le_refl _) ev rest h

theorem findEvent_rest_length (u : List Char) (ev rest : List Char)
    (h : Client.findEvent u = some (ev, rest)) :
    u.length = ev.length + 2 + rest.length := by
  rw [findEvent_some_shape u ev rest h]
  simp
  omega

theorem findEvent_append_aux : ∀ (n : Nat) (u : List Char), u.length ≤ n →
    ∀ (v ev rest : List Char), Client.findEvent u = some (ev, rest) →
      Client.findEvent (u ++ v) = some (ev, rest ++ v) := by
  intro n
  induction n with
  | zero =>
    intro u hu v ev rest h
    have : u = [] := List.length_eq_zero.mp (Nat.le_zero.mp hu)
    subst this
    exact absurd h (by simp [Client.findEvent])
  | succ n ih =>
    intro u hu v ev rest h
    match u with
    | [] => exact absurd h (by simp [Client.findEvent])
    | [a] => exact absurd h (by simp [Client.findEvent])
    | a :: b :: w =>
      rw [Client.findEvent.eq_def] at h
      simp only [] at h
      rw [show (a :: b :: w) ++ v = a :: b :: (w ++ v) from rfl, Client.findEvent.eq_def]
      simp only []
      by_cases hab : a = '\n' ∧ b = '\n'
      · rw [if_pos hab] at h
        simp at h
        obtain ⟨hev, hrest⟩ := h
        rw [if_pos hab, ← hev, ← hrest]
      · rw [if_neg hab] at h
        rw [if_neg hab]
        cases hfe : Client.findEvent (b :: w) with
        | none => rw [hfe] at h; cases h
        | some p =>
          rw [hfe] at h
          simp at h
          obtain ⟨hev, hrest⟩ := h
          have hlen : (b :: w).length ≤ n := by
            simp at hu ⊢
            omega
          have hbw := ih (b :: w) hlen v p.1 p.2 (by rw [hfe])
          rw [show b :: (w ++ v) = (b :: w) ++ v from rfl, hbw]
          rw [← hev, ← hrest]

theorem findEvent_some_append (u v ev rest : List Char)
    (h : Client.findEvent u = some (ev, rest)) :
    Client.findEvent (u ++ v) = some (ev, rest ++ v) :=
  findEvent_append_aux u.length u (Nat.le_refl _) v ev rest h

end StreamLemmas

namespace StreamLemmas2
open StreamLemmas

theorem decodeLoop_congr : ∀ (f1 f2 : Nat) (buf : List Char),
    buf.length ≤ f1 → buf.length ≤ f2 →
    Client.decodeLoop f1 buf = Client.decodeLoop f2 buf := by
  intro f1
  induction f1 with
  | zero =>
    intro f2 buf h1 h2
    have hb : buf = [] := List.length_eq_zero.mp (Nat.le_zero.mp h1)
    subst hb
    cases f2 <;> rfl
  | succ n ih =>
    intro f2 buf h1 h2
    cases f2 with
    | zero =>
      have hb : buf = [] := List.length_eq_zero.mp (Nat.le_zero.mp h2)
      subst hb
      rfl
    | succ m =>
      unfold Client.decodeLoop
      cases hfe : Client.findEvent buf with
      | none => simp
      | some p =>
        obtain ⟨ev, rest⟩ := p
        have hlen := findEvent_rest_length buf ev rest hfe
        simp only []
        rw [ih m rest (by omega) (by omega)]

theorem processBuffer_none (buf : List Char) (h : Client.findEvent buf = none) :
    Client.processBuffer buf = ([], buf) := by
  unfold Client.processBuffer
  cases hb : buf.length with
  | zero =>
    have : buf = [] := List.length_eq_zero.mp (by omega)
    subst this
    rfl
  | succ n =>
    unfold Client.decodeLoop
    rw [h]

theorem processBuffer_some (buf ev rest : List Char)
    (h : Client.findEvent buf = some (ev, rest)) :
    Client.processBuffer buf
      = ((Client.decodeEvent ev).toList ++ (Client.processBuffer rest).1,
         (Client.processBuffer rest).2) := by
  have hlen := findEvent_rest_length buf ev rest h
  unfold Client.processBuffer
  rw [show buf.length = (ev.length + 1 + rest.length) + 1 from by omega]
  unfold Client.decodeLoop
  rw [h]
  simp only []
  rw [decodeLoop_congr (ev.length + 1 + rest.length) rest.length rest (by omega) (Nat.le_refl _)]
  rw [← Client.decodeLoop.eq_def]

theorem processBuffer_leftover : ∀ (n : Nat) (buf : List Char), buf.length ≤ n →
    Client.findEvent (Client.processBuffer buf).2 = none := by
  intro n
  induction n with
  | zero =>
    intro buf h
    have : buf = [] := List.length_eq_zero.mp (Nat.le_zero.mp h)
    subst this
    rfl
  | succ n ih =>
    intro buf h
    cases hfe : Client.findEvent buf with
    | none => rw [processBuffer_none buf hfe]; exact hfe
    | some p =>
      obtain ⟨ev, rest⟩ := p
      have hlen := findEvent_rest_length buf ev rest hfe
      rw [processBuffer_some buf ev rest hfe]
      exact ih rest (by omega)

theorem processBuffer_append : ∀ (n : Nat) (u : List Char), u.length ≤ n →
    ∀ (v : List Char),
    Client.processBuffer (u ++ v)
      = ((Client.processBuffer u).1
           ++ (Client.processBuffer ((Client.processBuffer u).2 ++ v)).1,
         (Client.processBuffer ((Client.processBuffer u).2 ++ v)).2) := by
  intro n
  induction n with
  | zero =>
    intro u h v
    have : u = [] := List.length_eq_zero.mp (Nat.le_zero.mp h)
    subst this
    rw [show Client.processBuffer [] = ([], []) from rfl]
    simp
  | succ n ih =>
    intro u h v
    cases hfe : Client.findEvent u with
    | none =>
      rw [processBuffer_none u hfe]
      simp
    | some p =>
      obtain ⟨ev, rest⟩ := p
      have hlen := findEvent_rest_length u ev rest hfe
      rw [processBuffer_some u ev rest hfe,
        processBuffer_some (u ++ v) ev (rest ++ v) (findEvent_some_append u v ev rest hfe),
        ih rest (by omega) v]
      simp

theorem feedChunks_eq : ∀ (cs : List (List Char)) (buf : List Char),
    Client.findEvent buf = none →
    Client.feedChunks buf cs = (Client.processBuffer (buf ++ cs.flatten)).1 := by
  intro cs
  induction cs with
  | nil =>
    intro buf h
    rw [show Client.feedChunks buf [] = [] from rfl]
    rw [List.flatten_nil, List.append_nil, processBuffer_none buf h]
  | cons c cs ih =>
    intro buf h
    rw [show Client.feedChunks buf (c :: cs)
        = (Client.processBuffer (buf ++ c)).1
          ++ Client.feedChunks (Client.processBuffer (buf ++ c)).2 cs from rfl]
    rw [ih _ (processBuffer_leftover (buf ++ c).length _ (Nat.le_refl _)),
      List.flatten_cons, ← List.append_assoc,
      processBuffer_append (buf ++ c).length (buf ++ c) (Nat.le_refl _) cs.flatten]

theorem decodeStream_eq (chunks : List (List Char)) (s : List Char)
    (h : chunks.flatten = s) :
    Client.decodeStream chunks = (Client.processBuffer s).1 := by
  subst h
  unfold Client.decodeStream
  rw [feedChunks_eq chunks [] rfl]
  rfl

end StreamLemmas2

namespace MasterLemmas
open WireLemmas WireLemmas2 StreamLemmas StreamLemmas2

theorem hexDigitChar_ne_nlB : ∀ n, n < 16 → (Wire.hexDigitChar n != '\n') = true := by
  decide

theorem escChar_no_nlB (c : Char) : (Wire.escChar c).all (fun d => d != '\n') = true := by
  unfold Wire.escChar
  split_ifs with h1 h2 h3 h4 h5 h6 h7 h8
  · decide
  · decide
  · decide
  · decide
  · decide
  · decide
  · decide
  · have hh1 := hexDigitChar_ne_nlB (c.toNat / 16) (by omega)
    have hh2 := hexDigitChar_ne_nlB (c.toNat % 16) (Nat.mod_lt _ (by norm_num))
    simp only [List.all_cons, hh1, hh2]
    decide
  · simp only [List.all_cons, List.all_nil, Bool.and_true, bne_iff_ne, ne_eq]
    intro hc
    subst hc
    exact h8 (by decide)

theorem escapeJson_no_nlB (s : List Char) :
    (Wire.escapeJson s).all (fun d => d != '\n') = true := by
  induction s with
  | nil => rfl
  | cons c s ih =>
    rw [escapeJson_cons, List.all_append, escChar_no_nlB, ih]
    rfl

theorem payload_no_nlB (f : Wire.StreamFrame) :
    (Wire.encodePayload f).all (fun d => d != '\n') = true := by
  cases f with
  | content prId ch c =>
    simp only [Wire.encodePayload, Wire.contentPayload, List.all_append, List.all_cons,
      escapeJson_no_nlB,
      show (("\x7b\"prId\":\"" : String).data.all (fun d => d != '\n')) = true from by decide,
      show ((",\"section\":\"" : String).data.all (fun d => d != '\n')) = true from by decide,
      show ((",\"content\":\"" : String).data.all (fun d => d != '\n')) = true from by decide]
    decide
  | done prId ch =>
    simp only [Wire.encodePayload, Wire.donePayload, List.all_append, List.all_cons,
      escapeJson_no_nlB,
      show (("\x7b\"prId\":\"" : String).data.all (fun d => d != '\n')) = true from by decide,
      show ((",\"section\":\"" : String).data.all (fun d => d != '\n')) = true from by decide,
      show ((",\"done\":true\x7d" : String).data.all (fun d => d != '\n')) = true from by decide]
    decide
  | error msg =>
    simp only [Wire.encodePayload, Wire.errorPayload, List.all_append, List.all_cons,
      escapeJson_no_nlB,
      show (("\x7b\"message\":\"" : String).data.all (fun d => d != '\n')) = true from by decide]
    decide

theorem all_no_nl (l : List Char) (h : l.all (fun d => d != '\n') = true) :
    ∀ d ∈ l, d ≠ '\n' := by
  intro d hd
  have := List.all_eq_true.mp h d hd
  simpa [bne_iff_ne] using this

theorem payload_no_nl (f : Wire.StreamFrame) : ∀ d ∈ Wire.encodePayload f, d ≠ '\n' :=
  all_no_nl _ (payload_no_nlB f)

theorem findEvent_sep (E : List Char) :
    Client.findEvent ('\n' :: '\n' :: E) = some ([], E) := by
  rw [Client.findEvent.eq_def]
  simp

theorem encodeFrames_cons (f : Wire.StreamFrame) (fs : List Wire.StreamFrame) :
    Route.encodeFrames (f :: fs)
      = Route.recordBody f ++ ('\n' :: '\n' :: Route.encodeFrames fs) := by
  show (List.map Route.encodeFrame (f :: fs)).flatten = _
  rw [List.map_cons, List.flatten_cons]
  rw [show Route.encodeFrame f = Route.recordBody f ++ ['\n', '\n'] from rfl]
  simp [Route.encodeFrames]

theorem dataBody_no_nl (f : Wire.StreamFrame) :
    ∀ d ∈ ("data: ".data ++ Wire.encodePayload f), d ≠ '\n' := by
  intro d hd
  rcases List.mem_append.mp hd with h | h
  · clear hd
    revert d h
    decide
  · exact payload_no_nl f d h

theorem findEvent_encodeFrames (f : Wire.StreamFrame) (fs : List Wire.StreamFrame) :
    Client.findEvent (Route.encodeFrames (f :: fs))
      = some (Route.recordBody f, Route.encodeFrames fs) := by
  rw [encodeFrames_cons]
  cases f with
  | content prId ch c =>
    rw [show Route.recordBody (.content prId ch c)
        = "data: ".data ++ Wire.encodePayload (.content prId ch c) from rfl]
    rw [findEvent_append_noNl _ _ (dataBody_no_nl (.content prId ch c)), findEvent_sep]
    simp
  | done prId ch =>
    rw [show Route.recordBody (.done prId ch)
        = "data: ".data ++ Wire.encodePayload (.done prId ch) from rfl]
    rw [findEvent_append_noNl _ _ (dataBody_no_nl (.done prId ch)), findEvent_sep]
    simp
  | error msg =>
    rw [show Route.recordBody (.error msg)
        = "event: error".data ++ ('\n' :: ("data: ".data ++ Wire.errorPayload msg)) from by
      show "event: error\ndata: ".data ++ Wire.errorPayload msg = _
      rw [show ("event: error\ndata: " : String).data
          = "event: error".data ++ ('\n' :: "data: ".data) from rfl]
      simp]
    rw [List.append_assoc]
    rw [findEvent_append_noNl "event: error".data _ (by intro d hd; revert d hd; decide)]
    rw [show ('\n' :: ("data: ".data ++ Wire.errorPayload msg)) ++ '\n' :: '\n' :: Route.encodeFrames fs
        = '\n' :: 'd' :: (("ata: ".data ++ Wire.errorPayload msg) ++ '\n' :: '\n' :: Route.encodeFrames fs) from by
      rw [show ("data: " : String).data = 'd' :: "ata: ".data from rfl]
      simp]
    rw [findEvent_nl_cons _ _ (by decide)]
    rw [show 'd' :: (("ata: ".data ++ Wire.errorPayload msg) ++ '\n' :: '\n' :: Route.encodeFrames fs)
        = ("data: ".data ++ Wire.errorPayload msg) ++ '\n' :: '\n' :: Route.encodeFrames fs from by
      rw [show ("data: " : String).data = 'd' :: "ata: ".data from rfl]
      simp]
    rw [findEvent_append_noNl ("data: ".data ++ Wire.errorPayload msg) _
      (dataBody_no_nl (.error msg)), findEvent_sep]
    simp

theorem processBuffer_encodeFrames : ∀ (frames : List Wire.StreamFrame),
    Client.processBuffer (Route.encodeFrames frames)
      = (frames.filter (fun f => !Wire.isErrorB f), []) := by
  intro frames
  induction frames with
  | nil => rfl
  | cons f fs ih =>
    rw [processBuffer_some _ _ _ (findEvent_encodeFrames f fs), ih]
    cases f with
    | content prId ch c =>
      rw [decodeEvent_content prId ch c]
      simp [Wire.isErrorB]
    | done prId ch =>
      rw [decodeEvent_done prId ch]
      simp [Wire.isErrorB]
    | error msg =>
      rw [decodeEvent_error msg]
      simp [Wire.isErrorB]

end MasterLemmas

namespace RouteLemmas

theorem orchestrate_cons (pid : String) (r : Route.ItemRun)
    (rest : List (String × Route.ItemRun)) :
    Route.orchestrate ((pid, r) :: rest)
      = (Route.itemFrames pid r).1 ++
        (if (Route.itemFrames pid r).2 = Route.ItemOutcome.success
         then Route.orchestrate rest
         else [Route.genericErrorFrame]) := by
  unfold Route.orchestrate
  cases hif : Route.itemFrames pid r with
  | mk fs oc =>
    cases oc
    · simp
      rw [← Route.orchestrate.eq_def]
    · simp
    · simp

theorem orchestrate_pre_success :
    ∀ (pre : List (String × Route.ItemRun)) (l : List (String × Route.ItemRun)),
    (∀ x ∈ pre, (Route.itemFrames x.1 x.2).2 = Route.ItemOutcome.success) →
    Route.orchestrate (pre ++ l)
      = (pre.map (fun x => (Route.itemFrames x.1 x.2).1)).flatten ++ Route.orchestrate l := by
  intro pre
  induction pre with
  | nil => intro l _; simp
  | cons x pre ih =>
    intro l hs
    obtain ⟨pid, r⟩ := x
    rw [List.cons_append, orchestrate_cons,
      if_pos (hs (pid, r) (by simp)), ih l (fun y hy => hs y (by simp [hy]))]
    simp

theorem mem_contentFrames (pid : String) (ch : Wire.Channel) (frags : List String)
    (f : Wire.StreamFrame) (hf : f ∈ Route.contentFrames pid ch frags) :
    ∃ s, f = Wire.StreamFrame.content pid ch s := by
  obtain ⟨s, _, rfl⟩ := List.mem_map.mp hf
  exact ⟨s, rfl⟩

theorem filter_isError_contentFrames (pid : String) (ch : Wire.Channel)
    (frags : List String) :
    (Route.contentFrames pid ch frags).filter Wire.isErrorB = [] := by
  rw [List.filter_eq_nil]
  intro f hf
  obtain ⟨s, rfl⟩ := mem_contentFrames pid ch frags f hf
  simp [Wire.isErrorB]

theorem errors_outer (pid : String) (r : Route.ItemRun)
    (h : (Route.itemFrames pid r).2 = Route.ItemOutcome.outerFail) :
    (((Route.itemFrames pid r).1 ++ [Route.genericErrorFrame]).filter Wire.isErrorB).length
      = 1 := by
  unfold Route.itemFrames at h ⊢
  split_ifs at h ⊢ with h1 h2 h3 h4 <;>
    simp only [] at h <;>
    first
      | (simp [List.filter_append, List.filter_cons, filter_isError_contentFrames,
          show Wire.isErrorB Route.genericErrorFrame = true from rfl,
          show ∀ p m, Wire.isErrorB (Route.itemErrorFrame p m) = true from fun p m => rfl,
          show ∀ p ch s, Wire.isErrorB (Wire.StreamFrame.content p ch s) = false from
            fun p ch s => rfl,
          show ∀ p ch, Wire.isErrorB (Wire.StreamFrame.done p ch) = false from fun p ch => rfl])
      | (exact absurd h (by decide))

theorem errors_inner (pid : String) (r : Route.ItemRun)
    (h : (Route.itemFrames pid r).2 = Route.ItemOutcome.innerFail) :
    (((Route.itemFrames pid r).1 ++ [Route.genericErrorFrame]).filter Wire.isErrorB).length
      = 2 := by
  unfold Route.itemFrames at h ⊢
  split_ifs at h ⊢ with h1 h2 h3 h4 <;>
    simp only [] at h <;>
    first
      | (simp [List.filter_append, List.filter_cons, filter_isError_contentFrames,
          show Wire.isErrorB Route.genericErrorFrame = true from rfl,
          show ∀ p m, Wire.isErrorB (Route.itemErrorFrame p m) = true from fun p m => rfl,
          show ∀ p ch s, Wire.isErrorB (Wire.StreamFrame.content p ch s) = false from
            fun p ch s => rfl,
          show ∀ p ch, Wire.isErrorB (Wire.StreamFrame.done p ch) = false from fun p ch => rfl])
      | (exact absurd h (by decide))

end RouteLemmas

namespace OrderLemmas
open RouteLemmas

theorem ordered_of_no_q (p q : Wire.StreamFrame → Bool) (fs : List Wire.StreamFrame)
    (h : ∀ f ∈ fs, q f = false) : orderedFrames p q fs := by
  intro u f v heq hq
  have hf : f ∈ fs := heq ▸ List.mem_append.mpr (Or.inr (List.mem_cons_self f v))
  rw [h f hf] at hq
  cases hq

theorem ordered_append (p q : Wire.StreamFrame → Bool) (xs ys : List Wire.StreamFrame)
    (hx : orderedFrames p q xs) (hy : orderedFrames p q ys) :
    orderedFrames p q (xs ++ ys) := by
  intro u f v heq hq
  rcases List.append_eq_append_iff.mp heq with ⟨w, hu, hys⟩ | ⟨w, hxs, hfv⟩
  · obtain ⟨g, hg, hpg⟩ := hy w f v hys hq
    exact ⟨g, hu ▸ List.mem_append.mpr (Or.inr hg), hpg⟩
  · cases w with
    | nil =>
      simp at hxs
      obtain ⟨g, hg, hpg⟩ := hy [] f v (by simpa using hfv.symm) hq
      simp at hg
    | cons w0 w' =>
      injection hfv with hfw hv
      subst hfw
      obtain ⟨g, hg, hpg⟩ := hx u f w' hxs hq
      exact ⟨g, hg, hpg⟩

theorem ordered_of_split (p q : Wire.StreamFrame → Bool) (xs ys : List Wire.StreamFrame)
    (hq : ∀ f ∈ xs, q f = false) (hp : ∃ g ∈ xs, p g = true) :
    orderedFrames p q (xs ++ ys) := by
  intro u f v heq hqf
  rcases List.append_eq_append_iff.mp heq with ⟨w, hu, hys⟩ | ⟨w, hxs, hfv⟩
  · obtain ⟨g, hg, hpg⟩ := hp
    exact ⟨g, hu ▸ List.mem_append.mpr (Or.inl hg), hpg⟩
  · cases w with
    | nil =>
      obtain ⟨g, hg, hpg⟩ := hp
      rw [List.append_nil] at hxs
      exact ⟨g, hxs ▸ hg, hpg⟩
    | cons w0 w' =>
      injection hfv with hfw hv
      subst hfw
      have hfxs : f ∈ xs := hxs ▸ List.mem_append.mpr (Or.inr (List.mem_cons_self _ _))
      rw [hq f hfxs] at hqf
      cases hqf

theorem forall_contentFrames (P : Wire.StreamFrame → Prop) (pid : String)
    (ch : Wire.Channel) (frags : List String)
    (h : ∀ s, P (Wire.StreamFrame.content pid ch s)) :
    ∀ f ∈ Route.contentFrames pid ch frags, P f := by
  intro f hf
  obtain ⟨s, rfl⟩ := mem_contentFrames _ _ _ _ hf
  exact h s

theorem forall_mem_itemFrames (pid : String) (r : Route.ItemRun)
    (P : Wire.StreamFrame → Prop)
    (hc : ∀ (ch : Wire.Channel) (s : String), P (Wire.StreamFrame.content pid ch s))
    (hd : ∀ (ch : Wire.Channel), P (Wire.StreamFrame.done pid ch))
    (he : ∀ m, P (Wire.StreamFrame.error m)) :
    ∀ f ∈ (Route.itemFrames pid r).1, P f := by
  unfold Route.itemFrames
  split_ifs with h1 h2 h3 h4
  · intro f hf
    exact absurd hf (List.not_mem_nil f)
  · exact List.forall_mem_cons.mpr ⟨hc _ _,
      List.forall_mem_append.mpr ⟨forall_contentFrames P pid _ _ (hc _),
        List.forall_mem_singleton.mpr (he _)⟩⟩
  · exact List.forall_mem_append.mpr
      ⟨List.forall_mem_append.mpr
        ⟨List.forall_mem_cons.mpr ⟨hc _ _, forall_contentFrames P pid _ _ (hc _)⟩,
         List.forall_mem_singleton.mpr (hd _)⟩,
       List.forall_mem_singleton.mpr (he _)⟩
  · exact List.forall_mem_append.mpr
      ⟨List.forall_mem_append.mpr
        ⟨List.forall_mem_append.mpr
          ⟨List.forall_mem_cons.mpr ⟨hc _ _, forall_contentFrames P pid _ _ (hc _)⟩,
           List.forall_mem_singleton.mpr (hd _)⟩,
         List.forall_mem_cons.mpr ⟨hc _ _, forall_contentFrames P pid _ _ (hc _)⟩⟩,
       List.forall_mem_singleton.mpr (he _)⟩
  · exact List.forall_mem_append.mpr
      ⟨List.forall_mem_append.mpr
        ⟨List.forall_mem_append.mpr
          ⟨List.forall_mem_cons.mpr ⟨hc _ _, forall_contentFrames P pid _ _ (hc _)⟩,
           List.forall_mem_singleton.mpr (hd _)⟩,
         List.forall_mem_cons.mpr ⟨hc _ _, forall_contentFrames P pid _ _ (hc _)⟩⟩,
       List.forall_mem_singleton.mpr (hd _)⟩

theorem no_mkt_of_other (pid xid : String) (xr : Route.ItemRun) (hne : xid ≠ pid) :
    ∀ f ∈ (Route.itemFrames xid xr).1, Wire.isMktOf pid f = false := by
  have hbeq : (xid == pid) = false := beq_eq_false_iff_ne.mpr hne
  refine forall_mem_itemFrames xid xr _ ?_ ?_ ?_
  · intro ch s
    cases ch
    · rfl
    · simp [Wire.isMktOf, hbeq]
  · intro ch
    cases ch
    · rfl
    · simp [Wire.isMktOf, hbeq]
  · intro m
    rfl

theorem no_item_of_other (pid xid : String) (xr : Route.ItemRun) (hne : xid ≠ pid) :
    ∀ f ∈ (Route.itemFrames xid xr).1, Wire.isOfItemB pid f = false := by
  have hbeq : (xid == pid) = false := beq_eq_false_iff_ne.mpr hne
  refine forall_mem_itemFrames xid xr _ ?_ ?_ ?_
  · intro ch s
    simp [Wire.isOfItemB, hbeq]
  · intro ch
    simp [Wire.isOfItemB, hbeq]
  · intro m
    rfl

theorem mktDone_mem_of_success (pid : String) (r : Route.ItemRun)
    (h : (Route.itemFrames pid r).2 = Route.ItemOutcome.success) :
    Wire.StreamFrame.done pid Wire.Channel.marketing ∈ (Route.itemFrames pid r).1 := by
  unfold Route.itemFrames at h ⊢
  split_ifs at h ⊢ with h1 h2 h3 h4 <;> first
    | (exact absurd h (by decide))
    | simp

theorem devC_no_mkt (pid : String) (cF : List String) :
    ∀ f ∈ (Wire.StreamFrame.content pid Wire.Channel.developer ""
        :: Route.contentFrames pid Wire.Channel.developer cF
        ++ [Wire.StreamFrame.done pid Wire.Channel.developer]),
      Wire.isMktOf pid f = false := by
  refine List.forall_mem_cons.mpr ⟨rfl,
    List.forall_mem_append.mpr ⟨?_, List.forall_mem_singleton.mpr rfl⟩⟩
  exact forall_contentFrames _ pid _ _ (fun s => rfl)

theorem block_plus_tail (pid : String) (r : Route.ItemRun)
    (tail : List Wire.StreamFrame)
    (htail : (Route.itemFrames pid r).2 ≠ Route.ItemOutcome.success →
      ∀ f ∈ tail, Wire.isMktOf pid f = false) :
    orderedFrames (Wire.isDevDoneB pid) (Wire.isMktOf pid)
      ((Route.itemFrames pid r).1 ++ tail) := by
  have hdev : Wire.isDevDoneB pid
      (Wire.StreamFrame.done pid Wire.Channel.developer) = true := by
    simp [Wire.isDevDoneB]
  have hcontent : ∀ s, Wire.isMktOf pid
      (Wire.StreamFrame.content pid Wire.Channel.developer s) = false := fun s => rfl
  unfold Route.itemFrames at htail ⊢
  split_ifs at htail ⊢ with h1 h2 h3 h4
  · apply ordered_of_no_q
    rw [List.nil_append]
    exact htail (by intro hcon; simp at hcon)
  · apply ordered_of_no_q
    rw [show (Wire.StreamFrame.content pid Wire.Channel.developer ""
        :: Route.contentFrames pid Wire.Channel.developer r.dev.frags
        ++ [Route.itemErrorFrame pid r.dev.errMsg]) ++ tail
        = Wire.StreamFrame.content pid Wire.Channel.developer ""
          :: (Route.contentFrames pid Wire.Channel.developer r.dev.frags
            ++ ([Route.itemErrorFrame pid r.dev.errMsg] ++ tail)) from by simp]
    exact List.forall_mem_cons.mpr ⟨rfl,
      List.forall_mem_append.mpr ⟨forall_contentFrames _ pid _ _ hcontent,
        List.forall_mem_append.mpr ⟨List.forall_mem_singleton.mpr rfl,
          htail (by intro hcon; simp at hcon)⟩⟩⟩
  · apply ordered_of_no_q
    rw [show ((Wire.StreamFrame.content pid Wire.Channel.developer ""
        :: Route.contentFrames pid Wire.Channel.developer r.dev.frags)
        ++ [Wire.StreamFrame.done pid Wire.Channel.developer]
        ++ [Route.itemErrorFrame pid r.mkt.errMsg]) ++ tail
        = Wire.StreamFrame.content pid Wire.Channel.developer ""
          :: (Route.contentFrames pid Wire.Channel.developer r.dev.frags
            ++ ([Wire.StreamFrame.done pid Wire.Channel.developer]
              ++ ([Route.itemErrorFrame pid r.mkt.errMsg] ++ tail))) from by simp]
    exact List.forall_mem_cons.mpr ⟨rfl,
      List.forall_mem_append.mpr ⟨forall_contentFrames _ pid _ _ hcontent,
        List.forall_mem_append.mpr ⟨List.forall_mem_singleton.mpr rfl,
          List.forall_mem_append.mpr ⟨List.forall_mem_singleton.mpr rfl,
            htail (by intro hcon; simp at hcon)⟩⟩⟩⟩
  · rw [show ((Wire.StreamFrame.content pid Wire.Channel.developer ""
        :: Route.contentFrames pid Wire.Channel.developer r.dev.frags
        ++ [Wire.StreamFrame.done pid Wire.Channel.developer])
        ++ Wire.StreamFrame.content pid Wire.Channel.marketing ""
          :: Route.contentFrames pid Wire.Channel.marketing r.mkt.frags
        ++ [Route.itemErrorFrame pid r.mkt.errMsg]) ++ tail
        = (Wire.StreamFrame.content pid Wire.Channel.developer ""
            :: Route.contentFrames pid Wire.Channel.developer r.dev.frags
            ++ [Wire.StreamFrame.done pid Wire.Channel.developer])
          ++ ((Wire.StreamFrame.content pid Wire.Channel.marketing ""
            :: Route.contentFrames pid Wire.Channel.marketing r.mkt.frags
            ++ [Route.itemErrorFrame pid r.mkt.errMsg]) ++ tail) from by simp]
    exact ordered_of_split _ _ _ _ (devC_no_mkt pid r.dev.frags)
      ⟨Wire.StreamFrame.done pid Wire.Channel.developer, by simp, hdev⟩
  · rw [show ((Wire.StreamFrame.content pid Wire.Channel.developer ""
        :: Route.contentFrames pid Wire.Channel.developer r.dev.frags
        ++ [Wire.StreamFrame.done pid Wire.Channel.developer])
        ++ Wire.StreamFrame.content pid Wire.Channel.marketing ""
          :: Route.contentFrames pid Wire.Channel.marketing r.mkt.frags
        ++ [Wire.StreamFrame.done pid Wire.Channel.marketing]) ++ tail
        = (Wire.StreamFrame.content pid Wire.Channel.developer ""
            :: Route.contentFrames pid Wire.Channel.developer r.dev.frags
            ++ [Wire.StreamFrame.done pid Wire.Channel.developer])
          ++ ((Wire.StreamFrame.content pid Wire.Channel.marketing ""
            :: Route.contentFrames pid Wire.Channel.marketing r.mkt.frags
            ++ [Wire.StreamFrame.done pid Wire.Channel.marketing]) ++ tail) from by simp]
    exact ordered_of_split _ _ _ _ (devC_no_mkt pid r.dev.frags)
      ⟨Wire.StreamFrame.done pid Wire.Channel.developer, by simp, hdev⟩

end OrderLemmas

open StreamLemmas2 MasterLemmas RouteLemmas OrderLemmas

/-- C1: `mergeWithOverlap(prev, fragment)` returns the other string when either
side is empty, and otherwise returns `prev ++ fragment` with the first `k`
characters of `fragment` dropped, where `k` is the largest value bounded by
`min(len prev, len fragment)` such that the last `k` characters of `prev` equal
the first `k` characters of `fragment` (`k = 0` meaning plain concatenation);
in particular the five example merges from the specification hold. -/
theorem C1_mergeWithOverlap_spec :
    (∀ fragment : String, Client.mergeWithOverlap "" fragment = fragment) ∧
    (∀ prev : String, Client.mergeWithOverlap prev "" = prev) ∧
    (∀ prev fragment : String, prev ≠ "" → fragment ≠ "" →
      ∃ k, k ≤ min prev.data.length fragment.data.length ∧
        prev.data.drop (prev.data.length - k) = fragment.data.take k ∧
        (∀ j, j ≤ min prev.data.length fragment.data.length →
          prev.data.drop (prev.data.length - j) = fragment.data.take j → j ≤ k) ∧
        (Client.mergeWithOverlap prev fragment).data = prev.data ++ fragment.data.drop k) ∧
    Client.mergeWithOverlap "ab" "bc" = "abc" ∧
    Client.mergeWithOverlap "" "x" = "x" ∧
    Client.mergeWithOverlap "x" "" = "x" ∧
    Client.mergeWithOverlap "abc" "xyz" = "abcxyz" ∧
    Client.mergeWithOverlap "hello wor" "world!" = "hello world!" := by
  refine ⟨ClientLemmas.merge_nil_left, ClientLemmas.merge_nil_right, ?_,
    by decide, by decide, by decide, by decide, by decide⟩
  intro prev fragment hp hf
  have hp' : prev.data ≠ [] := fun h => hp ((ClientLemmas.data_nil_iff prev).mp h)
  have hf' : fragment.data ≠ [] := fun h => hf ((ClientLemmas.data_nil_iff fragment).mp h)
  refine ⟨Client.findOverlap prev.data fragment.data
      (min prev.data.length fragment.data.length),
    ClientLemmas.findOverlap_le _ _ _,
    ClientLemmas.findOverlap_eq _ _ _,
    fun j hj heq => ClientLemmas.findOverlap_max _ _ _ j hj heq, ?_⟩
  rw [ClientLemmas.merge_data_of_ne prev fragment hp' hf']
  rfl

/-- Witness for C1: the nonempty-strings conjunct instantiated at
`prev = "ab"`, `fragment = "bc"`. -/
theorem C1_mergeWithOverlap_spec_witness :
    ∃ k, k ≤ min "ab".data.length "bc".data.length ∧
      "ab".data.drop ("ab".data.length - k) = "bc".data.take k ∧
      (∀ j, j ≤ min "ab".data.length "bc".data.length →
        "ab".data.drop ("ab".data.length - j) = "bc".data.take j → j ≤ k) ∧
      (Client.mergeWithOverlap "ab" "bc").data = "ab".data ++ "bc".data.drop k :=
  C1_mergeWithOverlap_spec.2.2.1 "ab" "bc" (by decide) (by decide)

/-- C3 counterexample: the overlap merge is not associative, so applying two
content fragments `"c"` then `"bc"` on top of prior text `"ab"` differs from
applying the single merged fragment `merge("c","bc")`: the left side is
`"abc"`, the right side `"abcbc"`. -/
theorem C3_counterexample :
    Client.mergeWithOverlap (Client.mergeWithOverlap "ab" "c") "bc" ≠
      Client.mergeWithOverlap "ab" (Client.mergeWithOverlap "c" "bc") := by decide

/-- C3 (amended): when the prior accumulated channel text is empty — i.e. for
the first frames of a channel — applying two content fragments `a` then `b` in
sequence yields the same channel text as applying the single fragment
`merge(a, b)`. -/
theorem C3_merge_two_frames_from_empty (a b : String) :
    Client.mergeWithOverlap (Client.mergeWithOverlap "" a) b =
      Client.mergeWithOverlap "" (Client.mergeWithOverlap a b) := by
  rw [ClientLemmas.merge_nil_left, ClientLemmas.merge_nil_left]

/-- C9: merging a string with itself returns it unchanged, and more generally
whenever `fragment` is a suffix of `prev`, `mergeWithOverlap prev fragment`
returns `prev` — re-delivered, already-appended text is absorbed. -/
theorem C9_merge_absorbs_suffix :
    (∀ a : String, Client.mergeWithOverlap a a = a) ∧
    (∀ prev fragment : String, (∃ u, prev.data = u ++ fragment.data) →
      Client.mergeWithOverlap prev fragment = prev) := by
  have main : ∀ prev fragment : String, (∃ u, prev.data = u ++ fragment.data) →
      Client.mergeWithOverlap prev fragment = prev := by
    intro prev fragment h
    by_cases hf : fragment.data = []
    · rw [(ClientLemmas.data_nil_iff fragment).mp hf]
      exact ClientLemmas.merge_nil_right prev
    · have hp : prev.data ≠ [] := by
        obtain ⟨u, hu⟩ := h
        intro hnil
        rw [hnil] at hu
        exact hf (List.append_eq_nil.mp hu.symm).2
      have hcore : Client.mergeCore prev.data fragment.data = prev.data :=
        ClientLemmas.mergeCore_of_suffix _ _ h
      have hdata := ClientLemmas.merge_data_of_ne prev fragment hp hf
      rw [hcore] at hdata
      cases prev with
      | mk d => exact congrArg String.mk hdata
  exact ⟨fun a => main a a ⟨[], rfl⟩, main⟩

/-- Witness for C9: the suffix conjunct at `prev = "hello"`, `fragment = "llo"`. -/
theorem C9_merge_absorbs_suffix_witness :
    Client.mergeWithOverlap "hello" "llo" = "hello" :=
  C9_merge_absorbs_suffix.2 "hello" "llo" ⟨"he".data, by decide⟩

/-- C4 (code bug in the source): a changed line whose content after the diff
sign starts with a comment marker is NOT excluded by `countMeaningfulChanges`.
The comment check trims the raw line, which still begins with `+`/`-`, so
`startsWith('//')`/`startsWith('/*')` can never fire for lines that passed the
`+`/`-` filter: the comment line `+// a` is counted by both variants, although
the code's own comment says comments are skipped. -/
theorem C4_comment_line_is_counted :
    startsL ['/', '/'] (trimL "// a".data) = true ∧
    PRFilters.countMeaningfulChanges "+// a" = 1 ∧
    PRFiltersAlt.countMeaningfulChanges "+// a" = 1 := by decide

/-- C10: the lenient counter counts exactly the `+`/`-` lines that are not
whitespace-only, and in particular unified-diff file-header lines such as
`+++ b/path` and `--- a/path` each contribute 1 to the count, in both the
lenient and the stricter variant. -/
theorem C10_header_lines_counted :
    (∀ diff : String,
      PRFilters.countMeaningfulChanges diff = countNonWsPMLines diff) ∧
    (∀ (diff : String) (u v : List (List Char)),
      splitNl diff.data = u ++ "+++ b/path".data :: v →
      PRFilters.countMeaningfulChanges diff
        = PRFilters.countML u + 1 + PRFilters.countML v) ∧
    (∀ (diff : String) (u v : List (List Char)),
      splitNl diff.data = u ++ "--- a/path".data :: v →
      PRFilters.countMeaningfulChanges diff
        = PRFilters.countML u + 1 + PRFilters.countML v) ∧
    (∀ (diff : String) (u v : List (List Char)),
      splitNl diff.data = u ++ "+++ b/path".data :: v →
      PRFiltersAlt.countMeaningfulChanges diff
        = PRFiltersAlt.countML u + 1 + PRFiltersAlt.countML v) ∧
    (∀ (diff : String) (u v : List (List Char)),
      splitNl diff.data = u ++ "--- a/path".data :: v →
      PRFiltersAlt.countMeaningfulChanges diff
        = PRFiltersAlt.countML u + 1 + PRFiltersAlt.countML v) := by
  refine ⟨?_, ?_, ?_, ?_, ?_⟩
  · intro diff
    unfold PRFilters.countMeaningfulChanges PRFilters.countML countNonWsPMLines
    rw [List.filter_filter]
    congr 1
    apply List.filter_congr
    intro l _
    by_cases hpm : (startsL ['+'] l || startsL ['-'] l) = true
    · have hor : startsL ['+'] l = true ∨ startsL ['-'] l = true := by
        simpa using hpm
      have hshape : (∃ t, l = '+' :: t) ∨ (∃ t, l = '-' :: t) := by
        cases hor with
        | inl h => exact Or.inl (FilterLemmas.startsL_singleton _ _ h)
        | inr h => exact Or.inr (FilterLemmas.startsL_singleton _ _ h)
      rcases hshape with ⟨t, ht⟩ | ⟨t, ht⟩ <;> subst ht
      · rw [FilterLemmas.meaningful_pm '+' t (Or.inl rfl), hpm]
        simp
      · rw [FilterLemmas.meaningful_pm '-' t (Or.inr rfl), hpm]
        simp
    · have hpm' : (startsL ['+'] l || startsL ['-'] l) = false :=
        Bool.not_eq_true _ ▸ Bool.eq_false_iff.mpr hpm
      rw [hpm']
      simp
  · intro diff u v h
    show PRFilters.countML (splitNl diff.data) = _
    rw [h, List.append_cons, FilterLemmas.countML_append, FilterLemmas.countML_append,
      show PRFilters.countML ["+++ b/path".data] = 1 from by decide]
  · intro diff u v h
    show PRFilters.countML (splitNl diff.data) = _
    rw [h, List.append_cons, FilterLemmas.countML_append, FilterLemmas.countML_append,
      show PRFilters.countML ["--- a/path".data] = 1 from by decide]
  · intro diff u v h
    show PRFiltersAlt.countML (splitNl diff.data) = _
    rw [h, List.append_cons, FilterLemmas.countML_alt_append, FilterLemmas.countML_alt_append,
      show PRFiltersAlt.countML ["+++ b/path".data] = 1 from by decide]
  · intro diff u v h
    show PRFiltersAlt.countML (splitNl diff.data) = _
    rw [h, List.append_cons, FilterLemmas.countML_alt_append, FilterLemmas.countML_alt_append,
      show PRFiltersAlt.countML ["--- a/path".data] = 1 from by decide]

/-- Witness for C10: the header conjuncts instantiated at concrete two-line
diffs whose first line is the file header. -/
theorem C10_header_lines_counted_witness :
    (PRFilters.countMeaningfulChanges "+++ b/path\n+x"
      = PRFilters.countML [] + 1 + PRFilters.countML ["+x".data]) ∧
    (PRFilters.countMeaningfulChanges "--- a/path\n+x"
      = PRFilters.countML [] + 1 + PRFilters.countML ["+x".data]) ∧
    (PRFiltersAlt.countMeaningfulChanges "+++ b/path\n+x"
      = PRFiltersAlt.countML [] + 1 + PRFiltersAlt.countML ["+x".data]) ∧
    (PRFiltersAlt.countMeaningfulChanges "--- a/path\n+x"
      = PRFiltersAlt.countML [] + 1 + PRFiltersAlt.countML ["+x".data]) :=
  ⟨C10_header_lines_counted.2.1 "+++ b/path\n+x" [] ["+x".data] (by decide),
   C10_header_lines_counted.2.2.1 "--- a/path\n+x" [] ["+x".data] (by decide),
   C10_header_lines_counted.2.2.2.1 "+++ b/path\n+x" [] ["+x".data] (by decide),
   C10_header_lines_counted.2.2.2.2 "--- a/path\n+x" [] ["+x".data] (by decide)⟩

/-- C8 counterexample: the cap is NOT determined by the policy value.  With one
and the same policy, the conservative `filterPRs` caps six relevant items at 5
while the permissive variant returns all 6 — the cap is fixed by the code
variant, and no field of the policy selects it. -/
theorem C8_counterexample :
    (PRFilters.filterPRs
      [⟨"1", "x", "+a", ""⟩, ⟨"2", "x", "+a", ""⟩, ⟨"3", "x", "+a", ""⟩,
       ⟨"4", "x", "+a", ""⟩, ⟨"5", "x", "+a", ""⟩, ⟨"6", "x", "+a", ""⟩]
      ⟨1, [], 0, [], []⟩).length = 5 ∧
    (PRFiltersAlt.filterPRs
      [⟨"1", "x", "+a", ""⟩, ⟨"2", "x", "+a", ""⟩, ⟨"3", "x", "+a", ""⟩,
       ⟨"4", "x", "+a", ""⟩, ⟨"5", "x", "+a", ""⟩, ⟨"6", "x", "+a", ""⟩]
      ⟨1, [], 0, [], []⟩).length = 6 := by decide

/-- C8 (amended): for every input sequence and policy, each `filterPRs` variant
returns the items satisfying its `isRelevantPR`, preserving input order (the
result is a sublist of the input); the conservative variant truncates to the
first 5 relevant items — and returns exactly the relevant items whenever there
are at most 5 — while the permissive variant is uncapped.  The cap is fixed by
the variant, independent of the policy value. -/
theorem C8_filterAll (prs : List PRFilters.DiffItem) (f : PRFilters.PRFilter) :
    PRFilters.filterPRs prs f
      = (prs.filter (fun pr => PRFilters.isRelevantPR pr f)).take 5 ∧
    PRFiltersAlt.filterPRs prs f
      = prs.filter (fun pr => PRFiltersAlt.isRelevantPR pr f) ∧
    (PRFilters.filterPRs prs f).Sublist prs ∧
    (PRFiltersAlt.filterPRs prs f).Sublist prs ∧
    (∀ pr ∈ PRFilters.filterPRs prs f, PRFilters.isRelevantPR pr f = true) ∧
    (∀ pr ∈ PRFiltersAlt.filterPRs prs f, PRFiltersAlt.isRelevantPR pr f = true) ∧
    (PRFilters.filterPRs prs f).length ≤ 5 ∧
    ((prs.filter (fun pr => PRFilters.isRelevantPR pr f)).length ≤ 5 →
      PRFilters.filterPRs prs f = prs.filter (fun pr => PRFilters.isRelevantPR pr f)) := by
  refine ⟨rfl, rfl, ?_, ?_, ?_, ?_, ?_, ?_⟩
  · exact (List.take_sublist 5 _).trans (List.filter_sublist prs)
  · exact List.filter_sublist prs
  · intro pr hpr
    have hpr' : pr ∈ (prs.filter (fun x => PRFilters.isRelevantPR x f)).take 5 := hpr
    simpa using List.of_mem_filter ((List.take_sublist 5 _).subset hpr')
  · intro pr hpr
    have hpr' : pr ∈ prs.filter (fun x => PRFiltersAlt.isRelevantPR x f) := hpr
    simpa using List.of_mem_filter hpr'
  · unfold PRFilters.filterPRs
    rw [List.length_take]
    exact Nat.min_le_left _ _
  · intro hlen
    exact List.take_of_length_le hlen

/-- Witness for C8: with one relevant item the conservative variant returns the
whole filtered list (the cap conjunct's hypothesis discharged concretely). -/
theorem C8_filterAll_witness :
    PRFilters.filterPRs [⟨"1", "x", "+a", ""⟩] ⟨1, [], 0, [], []⟩
      = [(⟨"1", "x", "+a", ""⟩ : PRFilters.DiffItem)].filter
          (fun pr => PRFilters.isRelevantPR pr ⟨1, [], 0, [], []⟩) :=
  (C8_filterAll [⟨"1", "x", "+a", ""⟩] ⟨1, [], 0, [], []⟩).2.2.2.2.2.2.2 (by decide)

set_option maxRecDepth 400000 in
/-- C2 counterexample: the codec round trip fails for error frames.  The route
encodes an error frame with an `event: error` prefix, and the client decode
loop keeps only records starting with `data:`, so decoding the faithfully
encoded one-frame stream yields no frames at all. -/
theorem C2_counterexample :
    [Route.encodeFrame (Wire.StreamFrame.error "boom")].flatten
      = Route.encodeFrames [Wire.StreamFrame.error "boom"] ∧
    Client.decodeStream [Route.encodeFrame (Wire.StreamFrame.error "boom")]
      ≠ [Wire.StreamFrame.error "boom"] := by
  constructor
  · decide
  · decide

/-- C2 (amended): for every sequence of error-free frames (content and
completion frames — the frames the route emits while items are succeeding),
encoding each frame as its self-delimited record, concatenating, splitting at
arbitrary chunk boundaries, and feeding the chunks to the client decode loop
reproduces the original frame sequence, complete and in order.  Error frames
are the exception: the decode loop drops them (see the counterexample). -/
theorem C2_codec_roundtrip (frames : List Wire.StreamFrame) (chunks : List (List Char))
    (hne : ∀ f ∈ frames, Wire.isErrorB f = false)
    (hch : chunks.flatten = Route.encodeFrames frames) :
    Client.decodeStream chunks = frames := by
  rw [decodeStream_eq chunks _ hch, processBuffer_encodeFrames]
  exact List.filter_eq_self.mpr (fun f hf => by simp [hne f hf])

set_option maxRecDepth 400000 in
/-- Witness for C2: a two-frame stream split mid-record at position 17
decodes back to the original frames. -/
theorem C2_codec_roundtrip_witness :
    Client.decodeStream
      [(Route.encodeFrames [Wire.StreamFrame.content "7" Wire.Channel.developer "ab",
          Wire.StreamFrame.done "7" Wire.Channel.developer]).take 17,
       (Route.encodeFrames [Wire.StreamFrame.content "7" Wire.Channel.developer "ab",
          Wire.StreamFrame.done "7" Wire.Channel.developer]).drop 17]
      = [Wire.StreamFrame.content "7" Wire.Channel.developer "ab",
         Wire.StreamFrame.done "7" Wire.Channel.developer] :=
  C2_codec_roundtrip _ _ (by decide)
    (by simp [List.flatten_cons, List.take_append_drop])

/-- C6 (amended): an error frame on the stream is not propagated to the
caller — its record does not begin with the `data:` marker, so the decode loop
skips it and the reducer is never invoked for it; every `NoteState` accumulated
before the error frame is retained unchanged, and the frames after it are
processed as if the error frame were absent. -/
theorem C6_error_frame_skipped (st : Client.NotesMap) (fs1 fs2 : List Wire.StreamFrame) (msg : String)
    (chunks : List (List Char))
    (h1 : ∀ f ∈ fs1, Wire.isErrorB f = false)
    (h2 : ∀ f ∈ fs2, Wire.isErrorB f = false)
    (hch : chunks.flatten = Route.encodeFrames (fs1 ++ Wire.StreamFrame.error msg :: fs2)) :
    Client.runClient st chunks = (fs1 ++ fs2).foldl Client.applyFrame st := by
  unfold Client.runClient
  rw [decodeStream_eq chunks _ hch, processBuffer_encodeFrames]
  have e1 : fs1.filter (fun f => !Wire.isErrorB f) = fs1 :=
    List.filter_eq_self.mpr (fun f hf => by simp [h1 f hf])
  have e2 : fs2.filter (fun f => !Wire.isErrorB f) = fs2 :=
    List.filter_eq_self.mpr (fun f hf => by simp [h2 f hf])
  rw [List.filter_append, e1, List.filter_cons,
    show (!Wire.isErrorB (Wire.StreamFrame.error msg)) = false from rfl]
  simp [e2, List.foldl_append]

set_option maxRecDepth 400000 in
/-- C6 counterexample: an encoded error frame produces no decoded frame, and
running the client pipeline over it leaves previously accumulated note state
exactly as it was — no terminal signal reaches the reducer or the caller. -/
theorem C6_counterexample :
    Client.decodeStream [Route.encodeFrame (Wire.StreamFrame.error "boom")] = [] ∧
    Client.runClient [("1", ⟨"acc", "m"⟩)]
        [Route.encodeFrame (Wire.StreamFrame.error "boom")]
      = [("1", ⟨"acc", "m"⟩)] := by
  constructor
  · decide
  · decide

set_option maxRecDepth 400000 in
/-- Witness for C6: one content frame followed by an error frame; the client
state equals the fold over the content frame alone. -/
theorem C6_error_frame_skipped_witness :
    Client.runClient []
        [Route.encodeFrames
          [Wire.StreamFrame.content "1" Wire.Channel.developer "ab",
           Wire.StreamFrame.error "x"]]
      = [Wire.StreamFrame.content "1" Wire.Channel.developer "ab"].foldl
          Client.applyFrame [] :=
  C6_error_frame_skipped [] [Wire.StreamFrame.content "1" Wire.Channel.developer "ab"] [] "x" _
    (by decide) (by decide) (by simp)

/-- C5 counterexample: when the marketing `create` call of an item fails, the
stream carries TWO error frames (the inner catch's item-specific frame and the
outer catch's generic frame), not exactly one. -/
theorem C5_counterexample :
    ((Route.orchestrate
        [("1", ⟨⟨true, [], true, ""⟩, ⟨false, [], true, "boom"⟩⟩)]).filter
      Wire.isErrorB).length = 2 := by decide

/-- C5 (amended): when processing of an item fails, the orchestrator emits the
frames of the earlier (successful) items, the failed item's frames — ending in
an item-identifying error frame when the failure happened inside the per-item
`try` — and then the generic error frame, closes, and stops: the output is
independent of the remaining items.  The stream carries exactly one error
frame when the developer `create` call itself failed (outer failure) and
exactly two otherwise. -/
theorem C5_failure_terminates (pre : List (String × Route.ItemRun)) (pid : String) (r : Route.ItemRun)
    (post : List (String × Route.ItemRun))
    (hpre : ∀ x ∈ pre, (Route.itemFrames x.1 x.2).2 = Route.ItemOutcome.success)
    (hfail : (Route.itemFrames pid r).2 ≠ Route.ItemOutcome.success) :
    Route.orchestrate (pre ++ (pid, r) :: post)
      = (pre.map (fun x => (Route.itemFrames x.1 x.2).1)).flatten
        ++ ((Route.itemFrames pid r).1 ++ [Route.genericErrorFrame]) ∧
    Route.orchestrate (pre ++ (pid, r) :: post)
      = Route.orchestrate (pre ++ [(pid, r)]) ∧
    ((Route.itemFrames pid r).2 = Route.ItemOutcome.outerFail →
      (((Route.itemFrames pid r).1 ++ [Route.genericErrorFrame]).filter
        Wire.isErrorB).length = 1) ∧
    ((Route.itemFrames pid r).2 = Route.ItemOutcome.innerFail →
      (((Route.itemFrames pid r).1 ++ [Route.genericErrorFrame]).filter
        Wire.isErrorB).length = 2) := by
  have hmain : ∀ (post' : List (String × Route.ItemRun)),
      Route.orchestrate (pre ++ (pid, r) :: post')
        = (pre.map (fun x => (Route.itemFrames x.1 x.2).1)).flatten
          ++ ((Route.itemFrames pid r).1 ++ [Route.genericErrorFrame]) := by
    intro post'
    rw [orchestrate_pre_success pre _ hpre, orchestrate_cons, if_neg hfail]
  refine ⟨hmain post, ?_, errors_outer pid r, errors_inner pid r⟩
  rw [hmain post, show (pid, r) :: ([] : List (String × Route.ItemRun)) = [(pid, r)] from rfl,
    hmain []]

/-- Witness for C5: one failing item (marketing `create` fails) followed by a
pending item that is provably never processed. -/
theorem C5_failure_terminates_witness :
    Route.orchestrate ([] ++ ("1", (⟨⟨true, [], true, ""⟩, ⟨false, [], true, "boom"⟩⟩ : Route.ItemRun))
        :: [("2", ⟨⟨true, [], true, ""⟩, ⟨true, [], true, ""⟩⟩)])
      = (([] : List (String × Route.ItemRun)).map
          (fun x => (Route.itemFrames x.1 x.2).1)).flatten
        ++ ((Route.itemFrames "1" ⟨⟨true, [], true, ""⟩, ⟨false, [], true, "boom"⟩⟩).1
          ++ [Route.genericErrorFrame]) ∧
    Route.orchestrate ([] ++ ("1", (⟨⟨true, [], true, ""⟩, ⟨false, [], true, "boom"⟩⟩ : Route.ItemRun))
        :: [("2", ⟨⟨true, [], true, ""⟩, ⟨true, [], true, ""⟩⟩)])
      = Route.orchestrate ([] ++ [("1", ⟨⟨true, [], true, ""⟩, ⟨false, [], true, "boom"⟩⟩)]) ∧
    ((Route.itemFrames "1" ⟨⟨true, [], true, ""⟩, ⟨false, [], true, "boom"⟩⟩).2
        = Route.ItemOutcome.outerFail →
      (((Route.itemFrames "1" ⟨⟨true, [], true, ""⟩, ⟨false, [], true, "boom"⟩⟩).1
          ++ [Route.genericErrorFrame]).filter Wire.isErrorB).length = 1) ∧
    ((Route.itemFrames "1" ⟨⟨true, [], true, ""⟩, ⟨false, [], true, "boom"⟩⟩).2
        = Route.ItemOutcome.innerFail →
      (((Route.itemFrames "1" ⟨⟨true, [], true, ""⟩, ⟨false, [], true, "boom"⟩⟩).1
          ++ [Route.genericErrorFrame]).filter Wire.isErrorB).length = 2) :=
  C5_failure_terminates [] "1" ⟨⟨true, [], true, ""⟩, ⟨false, [], true, "boom"⟩⟩
    [("2", ⟨⟨true, [], true, ""⟩, ⟨true, [], true, ""⟩⟩)]
    (by decide) (by decide)

/-- C7: in the orchestrator's emitted frame sequence, every marketing-channel
frame of an item is strictly preceded by that item's developer completion
frame, and every frame of a following item is strictly preceded by the
preceding item's marketing completion frame (items are assumed to have
distinct ids; on failure the stream aborts and later items emit nothing, so
the guarantees hold vacuously there). -/
theorem C7_channel_ordering :
    (∀ (pre : List (String × Route.ItemRun)) (pid : String) (r : Route.ItemRun)
        (post : List (String × Route.ItemRun)),
      (∀ x ∈ pre, x.1 ≠ pid) →
      orderedFrames (Wire.isDevDoneB pid) (Wire.isMktOf pid)
        (Route.orchestrate (pre ++ (pid, r) :: post))) ∧
    (∀ (pre : List (String × Route.ItemRun)) (a b : String × Route.ItemRun)
        (post : List (String × Route.ItemRun)),
      (∀ x ∈ pre, x.1 ≠ b.1) → a.1 ≠ b.1 →
      orderedFrames (Wire.isMktDoneB a.1) (Wire.isOfItemB b.1)
        (Route.orchestrate (pre ++ a :: b :: post))) := by
  constructor
  · intro pre
    induction pre with
    | nil =>
      intro pid r post _
      rw [List.nil_append, orchestrate_cons]
      by_cases hs : (Route.itemFrames pid r).2 = Route.ItemOutcome.success
      · rw [if_pos hs]
        exact block_plus_tail pid r _ (fun hns => absurd hs hns)
      · rw [if_neg hs]
        exact block_plus_tail pid r _
          (fun _ => List.forall_mem_singleton.mpr rfl)
    | cons x pre ih =>
      intro pid r post hpre
      obtain ⟨xid, xr⟩ := x
      rw [List.cons_append, orchestrate_cons]
      have hxne : xid ≠ pid := hpre (xid, xr) (by simp)
      by_cases hs : (Route.itemFrames xid xr).2 = Route.ItemOutcome.success
      · rw [if_pos hs]
        exact ordered_append _ _ _ _
          (ordered_of_no_q _ _ _ (no_mkt_of_other pid xid xr hxne))
          (ih pid r post (fun y hy => hpre y (by simp [hy])))
      · rw [if_neg hs]
        exact ordered_append _ _ _ _
          (ordered_of_no_q _ _ _ (no_mkt_of_other pid xid xr hxne))
          (ordered_of_no_q _ _ _ (List.forall_mem_singleton.mpr rfl))
  · intro pre
    induction pre with
    | nil =>
      intro a b post hpre hab
      obtain ⟨aid, ar⟩ := a
      rw [List.nil_append, orchestrate_cons]
      by_cases hs : (Route.itemFrames aid ar).2 = Route.ItemOutcome.success
      · rw [if_pos hs]
        exact ordered_of_split _ _ _ _
          (no_item_of_other b.1 aid ar hab)
          ⟨Wire.StreamFrame.done aid Wire.Channel.marketing,
            mktDone_mem_of_success aid ar hs, by simp [Wire.isMktDoneB]⟩
      · rw [if_neg hs]
        exact ordered_of_no_q _ _ _
          (List.forall_mem_append.mpr ⟨no_item_of_other b.1 aid ar hab,
            List.forall_mem_singleton.mpr rfl⟩)
    | cons x pre ih =>
      intro a b post hpre hab
      obtain ⟨xid, xr⟩ := x
      rw [List.cons_append, orchestrate_cons]
      have hxne : xid ≠ b.1 := hpre (xid, xr) (by simp)
      by_cases hs : (Route.itemFrames xid xr).2 = Route.ItemOutcome.success
      · rw [if_pos hs]
        exact ordered_append _ _ _ _
          (ordered_of_no_q _ _ _ (no_item_of_other b.1 xid xr hxne))
          (ih a b post (fun y hy => hpre y (by simp [hy])) hab)
      · rw [if_neg hs]
        exact ordered_append _ _ _ _
          (ordered_of_no_q _ _ _ (no_item_of_other b.1 xid xr hxne))
          (ordered_of_no_q _ _ _ (List.forall_mem_singleton.mpr rfl))

/-- Witness for C7: both ordering guarantees instantiated on a concrete
two-item run. -/
theorem C7_channel_ordering_witness :
    orderedFrames (Wire.isDevDoneB "1") (Wire.isMktOf "1")
      (Route.orchestrate ([] ++ ("1", (⟨⟨true, ["a"], true, ""⟩, ⟨true, ["b"], true, ""⟩⟩ : Route.ItemRun))
        :: [("2", ⟨⟨true, [], true, ""⟩, ⟨true, [], true, ""⟩⟩)])) ∧
    orderedFrames (Wire.isMktDoneB "1") (Wire.isOfItemB "2")
      (Route.orchestrate ([] ++ ("1", (⟨⟨true, ["a"], true, ""⟩, ⟨true, ["b"], true, ""⟩⟩ : Route.ItemRun))
        :: ("2", (⟨⟨true, [], true, ""⟩, ⟨true, [], true, ""⟩⟩ : Route.ItemRun)) :: [])) :=
  ⟨C7_channel_ordering.1 [] "1" ⟨⟨true, ["a"], true, ""⟩, ⟨true, ["b"], true, ""⟩⟩
      [("2", ⟨⟨true, [], true, ""⟩, ⟨true, [], true, ""⟩⟩)]
      (by intro x hx; exact absurd hx (List.not_mem_nil x)),
   C7_channel_ordering.2 [] ("1", ⟨⟨true, ["a"], true, ""⟩, ⟨true, ["b"], true, ""⟩⟩)
      ("2", ⟨⟨true, [], true, ""⟩, ⟨true, [], true, ""⟩⟩) []
      (by intro x hx; exact absurd hx (List.not_mem_nil x)) (by decide)⟩
